import Mathlib

/-!
Verification of the layered configuration-resolution engine of this
repository (configuration registry, configuration model, consolidator and
change event, all found in
src/out-editor-src/vs/platform/telemetry/common/telemetry.ts).

The embedding is shallow: JavaScript plain-object trees become the
inductive type `JVal` (objects are insertion-ordered association lists,
mirroring JavaScript object key order), in-place mutation becomes explicit
state passing, and `undefined` becomes `Option`.

Helper functions that the source imports from
vs/platform/configuration/common/configuration.ts (getConfigurationValue,
toValuesTree, addToValueTree, removeFromValueTree) are not part of the
excerpted sources; they are modelled from the specification and marked
`Modelled from the spec:` in their doc comments.
-/

set_option maxRecDepth 4000

namespace VSConfig

/-- A JavaScript configuration value: null, boolean, integer number, string,
array, or plain object.  Objects are insertion-ordered association lists;
JavaScript guarantees unique keys, which is captured by the well-formedness
predicate `JVal.WF` below.  (Floating point numbers, RegExp and Date values
do not occur in the configuration trees of this code base and are omitted.) -/
inductive JVal where
  | null : JVal
  | bool (b : Bool) : JVal
  | num (n : Int) : JVal
  | str (s : String) : JVal
  | arr (elems : List JVal) : JVal
  | obj (fields : List (String × JVal)) : JVal
deriving Repr

/-- An object's field list: string keys in insertion order. -/
abbrev ObjMap := List (String × JVal)

/-- Mirrors types.isObject of src/out-editor-src/vs/base/common/types.ts:
true exactly for plain objects (not null, not an array; RegExp and Date do
not occur in this model). -/
def JVal.isObj : JVal → Bool
  | .obj _ => true
  | _ => false

/-- JavaScript `typeof v === 'object'`: true for plain objects, arrays and
null. -/
def JVal.typeofObject : JVal → Bool
  | .obj _ => true
  | .arr _ => true
  | .null => true
  | _ => false

/-- JavaScript truthiness of a value: null, false, 0 and the empty string
are falsy; every array and object (even empty) is truthy. -/
def JVal.truthy : JVal → Bool
  | .null => false
  | .bool b => b
  | .num n => n != 0
  | .str s => s ≠ ""
  | .arr _ => true
  | .obj _ => true

/-- Looks up a key in an object's field list (first occurrence, which is the
only occurrence for well-formed JavaScript objects). -/
def lookupField : ObjMap → String → Option JVal
  | [], _ => none
  | (k, v) :: rest, key => if k = key then some v else lookupField rest key

/-- JavaScript property assignment `o[key] = v`: replaces the value of an
existing key in place (keeping its position in insertion order) or appends
a new key at the end. -/
def setField : ObjMap → String → JVal → ObjMap
  | [], key, v => [(key, v)]
  | (k, w) :: rest, key, v =>
      if k = key then (k, v) :: rest else (k, w) :: setField rest key v

/-- JavaScript `delete o[key]`: removes the first binding of the key. -/
def eraseField : ObjMap → String → ObjMap
  | [], _ => []
  | (k, w) :: rest, key =>
      if k = key then rest else (k, w) :: eraseField rest key

/-- Keeps the first occurrence of every element, dropping later duplicates;
mirrors arrays.distinct of vs/base/common/arrays.ts (backed by a Set, which
preserves insertion order). -/
def distinctAux [DecidableEq α] (seen : List α) : List α → List α
  | [] => []
  | a :: rest =>
      if a ∈ seen then distinctAux seen rest
      else a :: distinctAux (a :: seen) rest

/-- Mirrors arrays.distinct: deduplication preserving first occurrences. -/
def distinctList [DecidableEq α] (l : List α) : List α := distinctAux [] l

/-- Appends those elements of the second list that are not yet present,
preserving order; mirrors the `keys` union loop of ConfigurationModel.merge. -/
def appendUnique [DecidableEq α] (base extra : List α) : List α :=
  extra.foldl (fun acc k => if k ∈ acc then acc else acc ++ [k]) base

mutual
/-- Mirrors ConfigurationModel.mergeContents (telemetry.ts lines 800-810):
for each key of the target, if both sides hold a plain object
(types.isObject) the objects are merged recursively, otherwise the target's
value overwrites the source's.  Deep cloning is the identity on pure
values. -/
def mergeContents : ObjMap → ObjMap → ObjMap
  | s, [] => s
  | s, (k, tv) :: rest => mergeContents (mergeField s k tv) rest
  termination_by _ t => sizeOf t
  decreasing_by all_goals simp_wf <;> omega

/-- One step of `mergeContents`: merge a single target binding into the
source object. -/
def mergeField (s : ObjMap) (k : String) (tv : JVal) : ObjMap :=
  match lookupField s k with
  | some (.obj sf) =>
      match tv with
      | .obj tf => setField s k (.obj (mergeContents sf tf))
      | _ => setField s k tv
  | _ => setField s k tv
  termination_by sizeOf tv
  decreasing_by all_goals simp_wf
end

/-- Merging at the level of values: when both sides are plain objects their
field lists are merged via `mergeContents`, otherwise the right side wins.
This is how mergeContents is invoked on the (always object-shaped) contents
of two configuration models. -/
def mergeValueInto (a b : JVal) : JVal :=
  match a, b with
  | .obj sf, .obj tf => .obj (mergeContents sf tf)
  | _, _ => b

mutual
/-- Well-formedness of a JavaScript value: every object that occurs in it
has pairwise-distinct keys.  JavaScript objects satisfy this by
construction. -/
def JVal.wfb : JVal → Bool
  | .null => true
  | .bool _ => true
  | .num _ => true
  | .str _ => true
  | .arr elems => wfbList elems
  | .obj fields => decide (fields.map Prod.fst).Nodup && wfbFields fields

/-- Well-formedness of every element of a list of values. -/
def wfbList : List JVal → Bool
  | [] => true
  | v :: rest => v.wfb && wfbList rest

/-- Well-formedness of every value of an object's field list. -/
def wfbFields : List (String × JVal) → Bool
  | [] => true
  | (_, v) :: rest => v.wfb && wfbFields rest
end

/-- Propositional form of value well-formedness. -/
def JVal.WF (v : JVal) : Prop := v.wfb = true

/-- Well-formedness of an object's field list. -/
def WFfields (fields : ObjMap) : Prop := JVal.WF (.obj fields)

/-- Walks a value along a list of path segments, descending only through
plain objects; absence is `none`. -/
def walkPath : JVal → List String → Option JVal
  | v, [] => some v
  | .obj fields, seg :: rest =>
      match lookupField fields seg with
      | some v => walkPath v rest
      | none => none
  | _, _ :: _ => none

/-- JavaScript String.split on a separator character: empty pieces are
preserved and the empty string yields one empty piece. -/
def splitOnChar (c : Char) : List Char → List (List Char)
  | [] => [[]]
  | x :: rest =>
      if x = c then [] :: splitOnChar c rest
      else
        match splitOnChar c rest with
        | l :: ls => (x :: l) :: ls
        | [] => [[x]]

/-- JavaScript String.trim: strips leading and trailing whitespace. -/
def trimChars (cs : List Char) : List Char :=
  ((cs.dropWhile Char.isWhitespace).reverse.dropWhile Char.isWhitespace).reverse

/-- Splits a dotted configuration key into its segments (JavaScript
`key.split('.')`); the result is never empty. -/
def splitPath (s : String) : List String :=
  (splitOnChar '.' s.data).map String.mk

/-- Modelled from the spec: getConfigurationValue of
vs/platform/configuration/common/configuration.ts, absent from the
excerpted sources.  Per the spec, `getValue(path)` walks the nested tree by
splitting `path` on `.` and returns the subtree/scalar or absence. -/
def getConfigurationValue (contents : ObjMap) (path : String) : Option JVal :=
  walkPath (.obj contents) (splitPath path)

/-- Adds a value under a list of path segments, creating missing
intermediate objects; `none` signals a conflict (a non-object value in the
way), in which case the caller leaves the tree unchanged. -/
def addSegments : ObjMap → List String → JVal → Option ObjMap
  | _, [], _ => none
  | fields, [last], v => some (setField fields last v)
  | fields, seg :: rest, v =>
      match lookupField fields seg with
      | some (.obj sub) =>
          (addSegments sub rest v).map (fun sub2 => setField fields seg (.obj sub2))
      | some _ => none
      | none =>
          (addSegments [] rest v).map (fun sub2 => setField fields seg (.obj sub2))

/-- Modelled from the spec: addToValueTree of
vs/platform/configuration/common/configuration.ts, absent from the
excerpted sources.  Adds a dotted key to a nested tree (nested build per
spec section 3); a conflicting non-object path segment leaves the tree
unchanged, the conflict being only reported, never thrown (spec section 7). -/
def addToValueTree (contents : ObjMap) (key : String) (value : JVal) : ObjMap :=
  (addSegments contents (splitPath key) value).getD contents

/-- Removes the binding at a list of path segments; `none` when the path is
absent (caller then leaves the tree unchanged). -/
def removeSegments : ObjMap → List String → Option ObjMap
  | _, [] => none
  | fields, [last] =>
      match lookupField fields last with
      | some _ => some (eraseField fields last)
      | none => none
  | fields, seg :: rest =>
      match lookupField fields seg with
      | some (.obj sub) =>
          (removeSegments sub rest).map (fun sub2 => setField fields seg (.obj sub2))
      | _ => none

/-- Modelled from the spec: removeFromValueTree of
vs/platform/configuration/common/configuration.ts, absent from the
excerpted sources.  Removes a dotted key from a nested tree; removing a
non-existent key is a no-op (spec section 4.4). -/
def removeFromValueTree (contents : ObjMap) (key : String) : ObjMap :=
  (removeSegments contents (splitPath key)).getD contents

/-- Modelled from the spec: toValuesTree of
vs/platform/configuration/common/configuration.ts, absent from the
excerpted sources.  Folds a flat map of dotted keys into a nested tree
(spec section 3: contents is reproducible by folding keys plus dotted-value
pairs into a tree). -/
def toValuesTree (raw : ObjMap) : ObjMap :=
  raw.foldl (fun acc p => addToValueTree acc p.1 p.2) []

/-- Parses a key against OVERRIDE_PROPERTY_PATTERN `^(\[([^\]]+)\])+$`
(telemetry.ts lines 558-561) in one pass: outside a group (`inGroup` is
none) only `[` may start a new group; inside a group, characters other than
`]` accumulate (in reverse) and `]` closes a non-empty group.  Returns the
group contents in order, or none when the key does not match. -/
def parseGroupsState : Option (List Char) → List Char → Option (List (List Char))
  | none, [] => some []
  | none, '[' :: rest => parseGroupsState (some []) rest
  | none, _ :: _ => none
  | some _, [] => none
  | some acc, ']' :: rest =>
      if acc.isEmpty then none
      else (parseGroupsState none rest).map (acc.reverse :: ·)
  | some acc, c :: rest => parseGroupsState (some (c :: acc)) rest

/-- The bracket groups of an override-section key, when it matches the
override pattern. -/
def parseGroups (cs : List Char) : Option (List (List Char)) :=
  parseGroupsState none cs

/-- Mirrors OVERRIDE_PROPERTY_REGEX.test: true when the key is an
override-section key such as `[typescript]` or `[json][jsonc]`. -/
def isOverrideKey (key : String) : Bool :=
  match parseGroups key.data with
  | some (_ :: _) => true
  | _ => false

/-- Mirrors overrideIdentifiersFromKey (telemetry.ts lines 563-576): the
trimmed, non-empty, deduplicated identifiers of an override-section key. -/
def overrideIdentifiersFromKey (key : String) : List String :=
  match parseGroups key.data with
  | some (g :: gs) =>
      distinctList (((g :: gs).map (fun c => String.mk (trimChars c))).filter (· ≠ ""))
  | _ => []

/-- Mirrors the IOverrides interface: one override section of a model. -/
structure IOverrides where
  identifiers : List String
  keys : List String
  contents : ObjMap
deriving Repr

/-- Mirrors ConfigurationModel (telemetry.ts lines 638-881): one layer's
contents tree, flat key list, and override sections.  The `raw` sequence
and the `logService` are omitted: `raw` feeds only `rawConfiguration` and
`inspect`, which no claim concerns, and the log service only receives
conflict reports. -/
structure ConfigurationModel where
  contents : ObjMap
  keys : List String
  overrides : List IOverrides
deriving Repr

namespace ConfigurationModel

/-- Mirrors ConfigurationModel.createEmptyModel. -/
def createEmptyModel : ConfigurationModel := ⟨[], [], []⟩

/-- Mirrors ConfigurationModel.isEmpty. -/
def isEmpty (m : ConfigurationModel) : Bool :=
  m.keys.isEmpty && m.contents.isEmpty && m.overrides.isEmpty

/-- Mirrors ConfigurationModel.getValue for a defined section (an undefined
section returns the whole contents in the source and is not needed by any
claim). -/
def getValue (m : ConfigurationModel) (s : String) : Option JVal :=
  getConfigurationValue m.contents s

/-- Merges one override section of another model into an accumulated
override list: the first section with the same identifier list is merged in
place (contents via mergeContents, keys deduplicated), otherwise the
section is appended; mirrors the override loop of ConfigurationModel.merge
(telemetry.ts lines 750-759). -/
def replaceFirstOverride : List IOverrides → IOverrides → List IOverrides
  | [], oth => [oth]
  | o :: os, oth =>
      if o.identifiers = oth.identifiers then
        { identifiers := o.identifiers
          keys := distinctList (o.keys ++ oth.keys)
          contents := mergeContents o.contents oth.contents } :: os
      else o :: replaceFirstOverride os oth

/-- Mirrors ConfigurationModel.merge (telemetry.ts lines 737-767): folds the
other models into this one in order; empty models are skipped; contents are
deep-merged, override sections merged per identifier list, keys unioned.
The `raw` bookkeeping of the source only feeds `inspect` and is omitted. -/
def merge (m : ConfigurationModel) (others : List ConfigurationModel) : ConfigurationModel :=
  others.foldl
    (fun acc other =>
      if other.isEmpty then acc
      else
        { contents := mergeContents acc.contents other.contents
          keys := appendUnique acc.keys other.keys
          overrides := other.overrides.foldl replaceFirstOverride acc.overrides })
    m

/-- Mirrors ConfigurationModel.getContentsForOverrideIdentifer (telemetry.ts
lines 812-834): merges the contents of every multi-identifier section that
contains the identifier, then merges the last single-identifier section on
top so that it takes precedence; none when no section matches. -/
def getContentsForOverrideIdentifer (m : ConfigurationModel) (identifier : String) :
    Option ObjMap :=
  let sweep := m.overrides.foldl
    (fun (acc : Option ObjMap × Option ObjMap) ov =>
      if ov.identifiers = [identifier] then (some ov.contents, acc.2)
      else if identifier ∈ ov.identifiers then
        (acc.1, some (match acc.2 with
                      | some c => mergeContents c ov.contents
                      | none => ov.contents))
      else acc)
    (none, none)
  match sweep.1 with
  | some idOnly =>
      some (match sweep.2 with
            | some c => mergeContents c idOnly
            | none => idOnly)
  | none => sweep.2

/-- Mirrors ConfigurationModel.createOverrideConfigurationModel (telemetry.ts
lines 769-798).  When no section matches (or the merged section is empty)
the model itself is returned.  Otherwise, per top-level key of the union:
a truthy override value wins, except that two plain objects are deep-merged
(the source's guard is JavaScript `typeof v === 'object'`; the combinations
where that guard also admits null or arrays either throw in JavaScript or
produce arrays with named properties, which this value model cannot
represent, and are modelled as the override value winning); a falsy
override value keeps the base value (an absent base value is then stored as
`undefined` in the source, which is indistinguishable from absence). -/
def createOverrideConfigurationModel (m : ConfigurationModel) (identifier : String) :
    ConfigurationModel :=
  match getContentsForOverrideIdentifer m identifier with
  | none => m
  | some oc =>
    if oc.isEmpty then m
    else
      let allKeys := distinctList (m.contents.map Prod.fst ++ oc.map Prod.fst)
      let contents := allKeys.filterMap (fun key =>
        match lookupField oc key with
        | some ov =>
            if ov.truthy then
              match lookupField m.contents key, ov with
              | some (.obj bf), .obj ovf => some (key, JVal.obj (mergeContents bf ovf))
              | _, _ => some (key, ov)
            else
              match lookupField m.contents key with
              | some bv => some (key, bv)
              | none => none
        | none =>
            match lookupField m.contents key with
            | some bv => some (key, bv)
            | none => none)
      ⟨contents, m.keys, m.overrides⟩

/-- Mirrors ConfigurationModel.override; the per-identifier memoization map
is omitted because the memoized value is a pure function of the immutable
model fields. -/
def override (m : ConfigurationModel) (identifier : String) : ConfigurationModel :=
  createOverrideConfigurationModel m identifier

/-- Mirrors the private ConfigurationModel.updateValue (telemetry.ts lines
860-880): adds the value into the contents tree, appends the key when new,
and keeps the override sections consistent for override-section keys. -/
def updateValue (m : ConfigurationModel) (key : String) (value : JVal) (add : Bool) :
    ConfigurationModel :=
  let contents := addToValueTree m.contents key value
  let keys := if add || !(m.keys.contains key) then m.keys ++ [key] else m.keys
  let overrides :=
    if isOverrideKey key then
      let identifiers := overrideIdentifiersFromKey key
      let subRaw : ObjMap :=
        match lookupField contents key with
        | some (.obj f) => f
        | _ => []
      let ov : IOverrides :=
        { identifiers := identifiers
          keys := subRaw.map Prod.fst
          contents := toValuesTree subRaw }
      match m.overrides.findIdx? (fun o => o.identifiers = identifiers) with
      | some i => m.overrides.set i ov
      | none => m.overrides ++ [ov]
    else m.overrides
  ⟨contents, keys, overrides⟩

/-- Mirrors ConfigurationModel.setValue. -/
def setValue (m : ConfigurationModel) (key : String) (value : JVal) : ConfigurationModel :=
  m.updateValue key value false

/-- Mirrors ConfigurationModel.removeValue (telemetry.ts lines 848-858): a
no-op when the key is not listed in `keys`; otherwise removes the key from
the key list and the contents tree, and for an override-section key splices
away the matching override section (JavaScript splice with index -1, when
no section matches, removes the last element). -/
def removeValue (m : ConfigurationModel) (key : String) : ConfigurationModel :=
  if key ∈ m.keys then
    { contents := removeFromValueTree m.contents key
      keys := m.keys.erase key
      overrides :=
        if isOverrideKey key then
          match m.overrides.findIdx? (fun o => o.identifiers = overrideIdentifiersFromKey key) with
          | some i => m.overrides.eraseIdx i
          | none => m.overrides.dropLast
        else m.overrides }
  else m

end ConfigurationModel

/-- Replaces the first binding of a key in an association list or appends a
new binding; models ResourceMap.set and Map.set with string keys. -/
def setAssoc {α : Type} : List (String × α) → String → α → List (String × α)
  | [], k, v => [(k, v)]
  | (a, b) :: rest, k, v =>
      if a = k then (a, v) :: rest else (a, b) :: setAssoc rest k v

/-- Looks up a key in an association list; models ResourceMap.get and
Map.get with string keys. -/
def lookupAssoc {α : Type} : List (String × α) → String → Option α
  | [], _ => none
  | (a, b) :: rest, key => if a = key then some b else lookupAssoc rest key

/-- Removes the first binding of a key from an association list; models
Map.delete with string keys. -/
def eraseAssoc {α : Type} : List (String × α) → String → List (String × α)
  | [], _ => []
  | (a, b) :: rest, key =>
      if a = key then rest else (a, b) :: eraseAssoc rest key

/-- Mirrors IConfigurationOverrides: an optional language override
identifier and an optional resource (URIs are modelled as strings). -/
structure IConfigurationOverrides where
  overrideIdentifier : Option String := none
  resource : Option String := none

/-- Mirrors IConfigurationUpdateOverrides as used by Configuration.updateValue,
which reads only the resource. -/
structure IConfigurationUpdateOverrides where
  resource : Option String := none

/-- The workspace collaborator, out of scope per the spec and specified only
through the interface the core needs: a folder-resolution function from a
resource to the owning folder root. -/
structure Workspace where
  getFolder : String → Option String

/-- Mirrors Configuration (telemetry.ts lines 1011-1232): one model per
layer plus the two consolidation caches.  ResourceMaps become association
lists keyed by resource strings; the memoized `_userConfiguration` is
modelled as the pure function `userConfiguration` because its inputs never
mutate. -/
structure Configuration where
  _defaultConfiguration : ConfigurationModel
  _policyConfiguration : ConfigurationModel
  _applicationConfiguration : ConfigurationModel
  _localUserConfiguration : ConfigurationModel
  _remoteUserConfiguration : ConfigurationModel
  _workspaceConfiguration : ConfigurationModel
  _folderConfigurations : List (String × ConfigurationModel)
  _memoryConfiguration : ConfigurationModel
  _memoryConfigurationByResource : List (String × ConfigurationModel)
  _workspaceConsolidatedConfiguration : Option ConfigurationModel := none
  _foldersConsolidatedConfigurations : List (String × ConfigurationModel) := []

namespace Configuration

/-- Mirrors the userConfiguration getter (telemetry.ts lines 1094-1099): the
local user model, merged with the remote one when that is non-empty. -/
def userConfiguration (c : Configuration) : ConfigurationModel :=
  if c._remoteUserConfiguration.isEmpty then c._localUserConfiguration
  else c._localUserConfiguration.merge [c._remoteUserConfiguration]

/-- Mirrors getWorkspaceConsolidatedConfiguration (telemetry.ts lines
1137-1142): the cached consolidated model when present, otherwise defaults
merged with application, user, workspace and global memory.  The
store-on-first-read of the source is modelled read-only: the stored value
equals the computed one at fill time, so returned values agree. -/
def getWorkspaceConsolidatedConfiguration (c : Configuration) : ConfigurationModel :=
  match c._workspaceConsolidatedConfiguration with
  | some m => m
  | none =>
      c._defaultConfiguration.merge
        [c._applicationConfiguration, c.userConfiguration,
         c._workspaceConfiguration, c._memoryConfiguration]

/-- Mirrors getFolderConsolidatedConfiguration (telemetry.ts lines
1144-1157): the cached per-folder model when present, otherwise the
workspace consolidation merged with the folder's own model (when the folder
has one). -/
def getFolderConsolidatedConfiguration (c : Configuration) (folder : String) :
    ConfigurationModel :=
  match lookupAssoc c._foldersConsolidatedConfigurations folder with
  | some m => m
  | none =>
      match lookupAssoc c._folderConfigurations folder with
      | some fc => (c.getWorkspaceConsolidatedConfiguration).merge [fc]
      | none => c.getWorkspaceConsolidatedConfiguration

/-- Mirrors getConsolidatedConfigurationModelForResource (telemetry.ts lines
1120-1135): the folder consolidation and the per-resource memory model
apply only when both a workspace and a resource are present. -/
def getConsolidatedConfigurationModelForResource (c : Configuration)
    (overrides : IConfigurationOverrides) (workspace : Option Workspace) :
    ConfigurationModel :=
  match workspace, overrides.resource with
  | some w, some r =>
      let withFolder :=
        match w.getFolder r with
        | some root => c.getFolderConsolidatedConfiguration root
        | none => c.getWorkspaceConsolidatedConfiguration
      match lookupAssoc c._memoryConfigurationByResource r with
      | some mem => withFolder.merge [mem]
      | none => withFolder
  | _, _ => c.getWorkspaceConsolidatedConfiguration

/-- Mirrors getConsolidatedConfigurationModel (telemetry.ts lines 1109-1118):
resource consolidation, then the language override projection, then the
policy model merged on top when it carries a value for the queried section
(the source also accepts an undefined section, which no claim needs). -/
def getConsolidatedConfigurationModel (c : Configuration) (sect : String)
    (overrides : IConfigurationOverrides) (workspace : Option Workspace) :
    ConfigurationModel :=
  let m0 := c.getConsolidatedConfigurationModelForResource overrides workspace
  let m1 :=
    match overrides.overrideIdentifier with
    | some id => m0.override id
    | none => m0
  if !c._policyConfiguration.isEmpty && (c._policyConfiguration.getValue sect).isSome then
    m1.merge [c._policyConfiguration]
  else m1

/-- Mirrors Configuration.getValue (telemetry.ts lines 1030-1033). -/
def getValue (c : Configuration) (sect : String) (overrides : IConfigurationOverrides)
    (workspace : Option Workspace) : Option JVal :=
  (c.getConsolidatedConfigurationModel sect overrides workspace).getValue sect

/-- Mirrors Configuration.updateValue (telemetry.ts lines 1035-1056): routes
to the global or per-resource memory model (creating the latter on first
write), removes on an undefined value and sets otherwise, and nulls the
workspace consolidation cache only when no resource is given. -/
def updateValue (c : Configuration) (key : String) (value : Option JVal)
    (overrides : IConfigurationUpdateOverrides) : Configuration :=
  match overrides.resource with
  | some r =>
      let mem := (lookupAssoc c._memoryConfigurationByResource r).getD ConfigurationModel.createEmptyModel
      let mem2 :=
        match value with
        | none => mem.removeValue key
        | some v => mem.setValue key v
      { c with _memoryConfigurationByResource := setAssoc c._memoryConfigurationByResource r mem2 }
  | none =>
      let mem2 :=
        match value with
        | none => c._memoryConfiguration.removeValue key
        | some v => c._memoryConfiguration.setValue key v
      { c with _memoryConfiguration := mem2, _workspaceConsolidatedConfiguration := none }

/-- Mirrors IConfigurationData: a plain snapshot of the serialized layers,
each layer being a contents/overrides/keys triple, which is exactly a
`ConfigurationModel` in this embedding. -/
structure IConfigurationData where
  defaults : ConfigurationModel
  policy : ConfigurationModel
  application : ConfigurationModel
  user : ConfigurationModel
  workspace : ConfigurationModel
  folders : List (String × ConfigurationModel)

/-- Mirrors Configuration.toData (telemetry.ts lines 1169-1202): serializes
defaults, policy, application, the merged user model, the workspace model
and the folder models; the memory layers are not serialized. -/
def toData (c : Configuration) : IConfigurationData :=
  { defaults := ⟨c._defaultConfiguration.contents, c._defaultConfiguration.keys,
                 c._defaultConfiguration.overrides⟩
    policy := ⟨c._policyConfiguration.contents, c._policyConfiguration.keys,
               c._policyConfiguration.overrides⟩
    application := ⟨c._applicationConfiguration.contents, c._applicationConfiguration.keys,
                    c._applicationConfiguration.overrides⟩
    user := ⟨(c.userConfiguration).contents, (c.userConfiguration).keys,
             (c.userConfiguration).overrides⟩
    workspace := ⟨c._workspaceConfiguration.contents, c._workspaceConfiguration.keys,
                  c._workspaceConfiguration.overrides⟩
    folders := c._folderConfigurations.map
      (fun p => (p.1, ⟨p.2.contents, p.2.keys, p.2.overrides⟩)) }

/-- Mirrors the private Configuration.parseConfigurationModel. -/
def parseConfigurationModel (data : ConfigurationModel) : ConfigurationModel :=
  ⟨data.contents, data.keys, data.overrides⟩

/-- Mirrors the static Configuration.parse (telemetry.ts lines 1204-1226):
the serialized user model becomes the local user layer, the remote user and
memory layers start empty, and the caches start unfilled. -/
def parse (data : IConfigurationData) : Configuration :=
  { _defaultConfiguration := parseConfigurationModel data.defaults
    _policyConfiguration := parseConfigurationModel data.policy
    _applicationConfiguration := parseConfigurationModel data.application
    _localUserConfiguration := parseConfigurationModel data.user
    _remoteUserConfiguration := ConfigurationModel.createEmptyModel
    _workspaceConfiguration := parseConfigurationModel data.workspace
    _folderConfigurations := data.folders.map (fun p => (p.1, parseConfigurationModel p.2))
    _memoryConfiguration := ConfigurationModel.createEmptyModel
    _memoryConfigurationByResource := []
    _workspaceConsolidatedConfiguration := none
    _foldersConsolidatedConfigurations := [] }

end Configuration

/-- Mirrors IConfigurationChange: the structural diff a change event is
built from. -/
structure IConfigurationChange where
  keys : List String
  overrides : List (String × List String)

namespace ConfigurationChangeEvent

/-- Mirrors the affectedKeys set built in the ConfigurationChangeEvent
constructor (telemetry.ts lines 1251-1258): change keys first, then the
keys of every override entry, deduplicated in insertion order. -/
def affectedKeysList (change : IConfigurationChange) : List String :=
  distinctList (change.keys ++ change.overrides.flatMap Prod.snd)

/-- Mirrors the marker-delimited string built in the constructor (telemetry.ts
lines 1260-1264), as a character list. -/
def affectsConfigStr (change : IConfigurationChange) : List Char :=
  (affectedKeysList change).foldl (fun acc k => acc ++ k.data ++ ['\n']) ['\n']

/-- JavaScript String.indexOf for character lists: the first position where
the needle occurs, if any. -/
def findSubstr (needle : List Char) : List Char → Option Nat
  | [] => if needle.isPrefixOf [] then some 0 else none
  | c :: t =>
      if needle.isPrefixOf (c :: t) then some 0
      else (findSubstr needle t).map (· + 1)

/-- Mirrors ConfigurationChangeEvent.affectsConfiguration (telemetry.ts
lines 1275-1299) for a call without an overrides argument: pad the section
with the marker, find its first occurrence, and require the character
immediately after to be the marker or a dot.  The branch taken when an
overrides argument is supplied (comparing previous and current resolved
values) is outside every claim and omitted. -/
def affectsConfiguration (change : IConfigurationChange) (sect : String) : Bool :=
  let s := affectsConfigStr change
  let needle := '\n' :: sect.data
  match findSubstr needle s with
  | none => false
  | some idx =>
      match s.get? (idx + needle.length) with
      | none => false
      | some code => code = '\n' || code = '.'

end ConfigurationChangeEvent

/-- Mirrors ConfigurationScope (telemetry.ts lines 64-89). -/
inductive ConfigurationScope where
  | APPLICATION
  | MACHINE
  | WINDOW
  | RESOURCE
  | LANGUAGE_OVERRIDABLE
  | MACHINE_OVERRIDABLE
deriving DecidableEq, Repr

/-- Mirrors ConfigurationDefaultValueSource: either one extension
(IExtensionInfo, an opaque record modelled by a numeric identity) or a map
from dotted sub-paths to extensions. -/
inductive DefaultValueSource where
  | extension (i : Nat)
  | map (entries : List (String × Nat))
deriving Repr

/-- Mirrors IRegisteredConfigurationPropertySchema: the behavior-relevant
fields of a property descriptor.  A JSON-schema `type` is a string or a
string list; purely descriptive schema fields (description, tags, $ref and
similar) do not influence the registry logic and are omitted. -/
structure IRegisteredConfigurationPropertySchema where
  type : Option (String ⊕ List String) := none
  default : Option JVal := none
  scope : Option ConfigurationScope := none
  restricted : Option Bool := none
  included : Option Bool := none
  policy : Option String := none
  disallowConfigurationDefault : Bool := false
  deprecationMessage : Option String := none
  markdownDeprecationMessage : Option String := none
  defaultDefaultValue : Option JVal := none
  source : Option Nat := none
  defaultValueSource : Option DefaultValueSource := none
deriving Repr

/-- Mirrors IConfigurationNode: schema scope, properties, and recursively
composed `allOf` sub-nodes; extensionInfo and restrictedProperties are read
from the root node of a registration. -/
inductive IConfigurationNode where
  | mk (scope : Option ConfigurationScope)
       (properties : List (String × IRegisteredConfigurationPropertySchema))
       (allOf : List IConfigurationNode)
       (extensionInfo : Option Nat)
       (restrictedProperties : Option (List String))

/-- The scope field of a configuration node. -/
def IConfigurationNode.scope : IConfigurationNode → Option ConfigurationScope
  | .mk s _ _ _ _ => s

/-- The properties of a configuration node. -/
def IConfigurationNode.properties :
    IConfigurationNode → List (String × IRegisteredConfigurationPropertySchema)
  | .mk _ p _ _ _ => p

/-- The sub-nodes of a configuration node. -/
def IConfigurationNode.allOf : IConfigurationNode → List IConfigurationNode
  | .mk _ _ a _ _ => a

/-- The contributing extension of a configuration node. -/
def IConfigurationNode.extensionInfo : IConfigurationNode → Option Nat
  | .mk _ _ _ e _ => e

/-- The restricted-properties list of a configuration node. -/
def IConfigurationNode.restrictedProperties : IConfigurationNode → Option (List String)
  | .mk _ _ _ _ r => r

/-- Mirrors IConfigurationDefaultOverrideValue. -/
structure IConfigurationDefaultOverrideValue where
  value : JVal
  source : Option DefaultValueSource := none
deriving Repr

/-- Mirrors the per-key record held in configurationDefaultsOverrides: the
raw list of contributed overrides and the merged override value. -/
structure ConfigurationDefaultOverrideEntry where
  configurationDefaultOverrides : List (JVal × Option Nat)
  configurationDefaultOverrideValue : Option IConfigurationDefaultOverrideValue := none
deriving Repr

/-- Mirrors IConfigurationDefaults: one registerDefaultConfigurations
contribution. -/
structure IConfigurationDefaults where
  overrides : List (String × JVal)
  source : Option Nat := none

/-- The mutable state of the ConfigurationRegistry singleton (telemetry.ts
lines 182-556), restricted to the behavior-relevant maps.  The contributor
list, JSON-schema mirrors (allSettings and friends), emitters and the
resource-language schema are presentation plumbing and are omitted. -/
structure ConfigurationRegistry where
  configurationProperties : List (String × IRegisteredConfigurationPropertySchema) := []
  policyConfigurations : List (String × String) := []
  excludedConfigurationProperties : List (String × IRegisteredConfigurationPropertySchema) := []
  configurationDefaultsOverrides : List (String × ConfigurationDefaultOverrideEntry) := []
  overrideIdentifiers : List String := []

namespace ConfigurationRegistry

/-- Mirrors getDefaultValue (telemetry.ts lines 578-595): the default
default for a schema type (the first element of a type list). -/
def getDefaultValue (type : Option (String ⊕ List String)) : JVal :=
  let t : Option String :=
    match type with
    | some (.inl s) => some s
    | some (.inr (s :: _)) => some s
    | some (.inr []) => none
    | none => none
  match t with
  | some "boolean" => .bool false
  | some "integer" => .num 0
  | some "number" => .num 0
  | some "string" => .str ""
  | some "array" => .arr []
  | some "object" => .obj []
  | _ => .null

/-- Mirrors validateProperty (telemetry.ts lines 600-614): the error string
for an empty (or blank) key, an override-pattern key, an already registered
key, or a policy name already claimed by another key; nls.localize is
modelled by the substituted English message. -/
def validateProperty (reg : ConfigurationRegistry) (property : String)
    (schema : IRegisteredConfigurationPropertySchema) : Option String :=
  if (trimChars property.data).isEmpty then some "Cannot register an empty property"
  else if isOverrideKey property then
    some ("Cannot register " ++ property ++
      ". This matches property pattern for describing language specific editor settings. Use configurationDefaults contribution.")
  else if (lookupAssoc reg.configurationProperties property).isSome then
    some ("Cannot register " ++ property ++ ". This property is already registered.")
  else
    match schema.policy with
    | some pn =>
        match lookupAssoc reg.policyConfigurations pn with
        | some owner =>
            some ("Cannot register " ++ property ++ ". The associated policy " ++ pn ++
              " is already registered with " ++ owner ++ ".")
        | none => none
    | none => none

/-- Mirrors updatePropertyDefaultValue (telemetry.ts lines 536-555): the
effective default is the merged default override when allowed, else the
default default, else the type-derived default. -/
def updatePropertyDefaultValue (reg : ConfigurationRegistry) (key : String)
    (property : IRegisteredConfigurationPropertySchema) :
    IRegisteredConfigurationPropertySchema :=
  let cdo := (lookupAssoc reg.configurationDefaultsOverrides key).bind
    (·.configurationDefaultOverrideValue)
  let step1 : Option JVal × Option DefaultValueSource :=
    match cdo with
    | some o =>
        if !property.disallowConfigurationDefault || o.source.isNone then (some o.value, o.source)
        else (none, none)
    | none => (none, none)
  let step2 : Option JVal × Option DefaultValueSource :=
    match step1.1 with
    | some v => (some v, step1.2)
    | none => (property.defaultDefaultValue, none)
  let final : JVal :=
    match step2.1 with
    | some v => v
    | none => getDefaultValue property.type
  { property with default := some final, defaultValueSource := step2.2 }

/-- The object fields of a value (empty for non-objects). -/
def JValObjFields : JVal → ObjMap
  | .obj f => f
  | _ => []

/-- JavaScript object spread `\x7b ...base, ...add \x7d`: the add object's
bindings override the base object's key by key (one level deep). -/
def spreadFields (base add : ObjMap) : ObjMap :=
  add.foldl (fun acc p => setField acc p.1 p.2) base

/-- Mirrors mergeDefaultConfigurationsForOverrideIdentifier (telemetry.ts
lines 304-343), for override-section keys: per property of the contribution,
an object value is spread over an existing object (or absent) value with
per-sub-key provenance recorded under `property.subKey`, and a primitive
value overwrites with provenance under `property` (or provenance deleted
when the contribution has no source).  Returns none on the defensive
not-a-Map check. -/
def mergeDefaultConfigurationsForOverrideIdentifier
    (_overrideIdentifier : String) (configurationValueObject : JVal)
    (valueSource : Option Nat)
    (existingDefaultOverride : Option IConfigurationDefaultOverrideValue) :
    Option IConfigurationDefaultOverrideValue :=
  let defaultFields : ObjMap :=
    match existingDefaultOverride with
    | some e => if e.value.truthy then JValObjFields e.value else []
    | none => []
  let src0 : DefaultValueSource :=
    match existingDefaultOverride with
    | some e => (e.source).getD (.map [])
    | none => .map []
  match src0 with
  | .extension _ => none
  | .map entries0 =>
      let step := fun (st : ObjMap × List (String × Nat)) (p : String × JVal) =>
        let (df, es) := st
        let pk := p.1
        let pv := p.2
        let isObjectSetting := pv.isObj &&
          (match lookupField df pk with
           | none => true
           | some dv => dv.isObj)
        if isObjectSetting then
          let base := match lookupField df pk with
            | some (.obj f) => f
            | _ => []
          let df2 := setField df pk (.obj (spreadFields base (JValObjFields pv)))
          let es2 := match valueSource with
            | some vs => (JValObjFields pv).foldl
                (fun acc q => setAssoc acc (pk ++ "." ++ q.1) vs) es
            | none => es
          (df2, es2)
        else
          let df2 := setField df pk pv
          let es2 := match valueSource with
            | some vs => setAssoc es pk vs
            | none => eraseAssoc es pk
          (df2, es2)
      let r := (JValObjFields configurationValueObject).foldl step (defaultFields, entries0)
      some { value := .obj r.1, source := some (.map r.2) }

/-- Mirrors mergeDefaultConfigurationsForConfigurationProperty (telemetry.ts
lines 345-375), for plain keys: when the merge condition holds (value is an
object and either the registered property has type object, or the key is
unregistered and the existing default is absent or an object), the value
becomes the spread of the existing default under the contributed object
with per-top-level-sub-key provenance; otherwise the contributed value
replaces the default with the contributing extension as provenance. -/
def mergeDefaultConfigurationsForConfigurationProperty (reg : ConfigurationRegistry)
    (propertyKey : String) (value : JVal) (valuesSource : Option Nat)
    (existingDefaultOverride : Option IConfigurationDefaultOverrideValue) :
    Option IConfigurationDefaultOverrideValue :=
  let property := lookupAssoc reg.configurationProperties propertyKey
  let existingDefaultValue : Option JVal :=
    match existingDefaultOverride with
    | some e => some e.value
    | none => property.bind (·.defaultDefaultValue)
  let isObjectSetting := value.isObj &&
    (match property with
     | some p => p.type = some (.inl "object")
     | none =>
        match existingDefaultValue with
        | none => true
        | some v => v.isObj)
  if isObjectSetting then
    let src0 : DefaultValueSource :=
      match existingDefaultOverride with
      | some e => (e.source).getD (.map [])
      | none => .map []
    match src0 with
    | .extension _ => none
    | .map entries0 =>
        let entries1 :=
          match valuesSource with
          | some vs => (JValObjFields value).foldl
              (fun acc q => setAssoc acc (propertyKey ++ "." ++ q.1) vs) entries0
          | none => entries0
        let base :=
          match existingDefaultValue with
          | some (.obj f) => f
          | _ => []
        some { value := .obj (spreadFields base (JValObjFields value)),
               source := some (.map entries1) }
  else
    some { value := value, source := valuesSource.map .extension }

/-- Mirrors updateDefaultOverrideProperty (telemetry.ts lines 290-302): the
synthetic object-typed property registered for an override-section key that
carries a merged default; the localized description and schema reference
are presentation-only and omitted. -/
def updateDefaultOverrideProperty (reg : ConfigurationRegistry) (key : String)
    (newDefaultOverride : IConfigurationDefaultOverrideValue) (source : Option Nat) :
    ConfigurationRegistry :=
  let property : IRegisteredConfigurationPropertySchema :=
    { type := some (.inl "object")
      default := some newDefaultOverride.value
      defaultDefaultValue := some newDefaultOverride.value
      source := source
      defaultValueSource := source.map .extension }
  { reg with configurationProperties := setAssoc reg.configurationProperties key property }

/-- Adds identifiers to the override-identifier set; mirrors
doRegisterOverrideIdentifiers (the schema-pattern refresh is omitted). -/
def doRegisterOverrideIdentifiers (reg : ConfigurationRegistry) (ids : List String) :
    ConfigurationRegistry :=
  { reg with overrideIdentifiers :=
      ids.foldl (fun acc i => if i ∈ acc then acc else acc ++ [i]) reg.overrideIdentifiers }

/-- Mirrors doRegisterDefaultConfigurations (telemetry.ts lines 241-288):
per contributed key, the raw override is appended, the merged override
value recomputed (override-section keys additionally register a synthetic
property and collect their identifiers; plain keys refresh the default of
an already registered property), and the collected identifiers are
registered at the end.  The registeredConfigurationDefaults archive and the
events are omitted. -/
def doRegisterDefaultConfigurations (reg : ConfigurationRegistry)
    (configurationDefaults : List IConfigurationDefaults) : ConfigurationRegistry :=
  let step := fun (st : ConfigurationRegistry × List String) (d : IConfigurationDefaults) =>
    d.overrides.foldl
      (fun (st : ConfigurationRegistry × List String) (p : String × JVal) =>
        let (reg, ids) := st
        let key := p.1
        let value := p.2
        let entry0 := (lookupAssoc reg.configurationDefaultsOverrides key).getD ⟨[], none⟩
        let entry1 := { entry0 with configurationDefaultOverrides :=
          entry0.configurationDefaultOverrides ++ [(value, d.source)] }
        if isOverrideKey key then
          match mergeDefaultConfigurationsForOverrideIdentifier key value d.source
              entry1.configurationDefaultOverrideValue with
          | none =>
              let dos1 := setAssoc reg.configurationDefaultsOverrides key entry1
              ({ reg with configurationDefaultsOverrides := dos1 }, ids)
          | some ndo =>
              let entry2 := { entry1 with configurationDefaultOverrideValue := some ndo }
              let dos2 := setAssoc reg.configurationDefaultsOverrides key entry2
              let reg2 := { reg with configurationDefaultsOverrides := dos2 }
              let reg3 := updateDefaultOverrideProperty reg2 key ndo d.source
              (reg3, ids ++ overrideIdentifiersFromKey key)
        else
          match mergeDefaultConfigurationsForConfigurationProperty reg key value d.source
              entry1.configurationDefaultOverrideValue with
          | none =>
              let dos1 := setAssoc reg.configurationDefaultsOverrides key entry1
              ({ reg with configurationDefaultsOverrides := dos1 }, ids)
          | some ndo =>
              let entry2 := { entry1 with configurationDefaultOverrideValue := some ndo }
              let dos2 := setAssoc reg.configurationDefaultsOverrides key entry2
              let reg2 := { reg with configurationDefaultsOverrides := dos2 }
              let reg3 :=
                match lookupAssoc reg2.configurationProperties key with
                | some property =>
                    let props2 := setAssoc reg2.configurationProperties key
                      (updatePropertyDefaultValue reg2 key property)
                    { reg2 with configurationProperties := props2 }
                | none => reg2
              (reg3, ids))
      st
  let r := configurationDefaults.foldl step (reg, [])
  doRegisterOverrideIdentifiers r.1 r.2

/-- Mirrors registerDefaultConfigurations (telemetry.ts lines 234-239); the
schema-change and update events are omitted. -/
def registerDefaultConfigurations (reg : ConfigurationRegistry)
    (configurationDefaults : List IConfigurationDefaults) : ConfigurationRegistry :=
  doRegisterDefaultConfigurations reg configurationDefaults

/-- Mirrors the per-key schema mutations of validateAndRegisterProperties
before the included-check (telemetry.ts lines 411-423): record the
contributing extension, remember the schema default as the default default,
recompute the effective default, then clear the scope for override-pattern
keys or inherit scope and restricted status otherwise. -/
def processSchemaBase (reg : ConfigurationRegistry) (key : String)
    (sch : IRegisteredConfigurationPropertySchema) (extensionInfo : Option Nat)
    (restrictedProperties : Option (List String)) (scope : ConfigurationScope) :
    IRegisteredConfigurationPropertySchema :=
  let prop1 := { sch with source := extensionInfo, defaultDefaultValue := sch.default }
  let prop2 := updatePropertyDefaultValue reg key prop1
  if isOverrideKey key then { prop2 with scope := none }
  else
    { prop2 with
      scope := some (prop2.scope.getD scope)
      restricted := some (prop2.restricted.getD
        (match restrictedProperties with
         | some l => decide (key ∈ l)
         | none => false)) }

/-- Mirrors the deprecation fallback (telemetry.ts lines 438-441): when the
deprecation message is falsy and a markdown deprecation message is truthy,
the latter becomes the deprecation message. -/
def applyDeprecationFallback (sch : IRegisteredConfigurationPropertySchema) :
    IRegisteredConfigurationPropertySchema :=
  if (match sch.deprecationMessage with
      | none => true
      | some s => s = "") &&
     (match sch.markdownDeprecationMessage with
      | none => false
      | some s => s ≠ "") then
    { sch with deprecationMessage := sch.markdownDeprecationMessage }
  else sch

/-- One iteration of the property loop of validateAndRegisterProperties. -/
def processPropertyStep (validate : Bool) (extensionInfo : Option Nat)
    (restrictedProperties : Option (List String)) (scope : ConfigurationScope)
    (st : ConfigurationRegistry × List (String × IRegisteredConfigurationPropertySchema))
    (p : String × IRegisteredConfigurationPropertySchema) :
    ConfigurationRegistry × List (String × IRegisteredConfigurationPropertySchema) :=
  let (reg, kept) := st
  let key := p.1
  if validate && (validateProperty reg key p.2).isSome then (reg, kept)
  else
    let prop3 := processSchemaBase reg key p.2 extensionInfo restrictedProperties scope
    if prop3.included = some false then
      ({ reg with excludedConfigurationProperties :=
          setAssoc reg.excludedConfigurationProperties key prop3 }, kept)
    else
      let prop4 := applyDeprecationFallback prop3
      let reg2 :=
        { reg with
          configurationProperties := setAssoc reg.configurationProperties key prop4
          policyConfigurations :=
            match prop4.policy with
            | some pn => setAssoc reg.policyConfigurations pn key
            | none => reg.policyConfigurations }
      (reg2, kept ++ [(key, prop4)])

/-- Registers the properties of one node level; mirrors the property loop
of validateAndRegisterProperties (telemetry.ts lines 400-445).  Returns the
updated registry and the properties kept in the node (a rejected or
excluded property is deleted from the node). -/
def processProperties (regStart : ConfigurationRegistry)
    (props : List (String × IRegisteredConfigurationPropertySchema))
    (validate : Bool) (extensionInfo : Option Nat)
    (restrictedProperties : Option (List String)) (scope : ConfigurationScope) :
    ConfigurationRegistry × List (String × IRegisteredConfigurationPropertySchema) :=
  props.foldl (processPropertyStep validate extensionInfo restrictedProperties scope)
    (regStart, [])

mutual
/-- Mirrors validateAndRegisterProperties (telemetry.ts lines 400-452):
processes the node's own properties with the inherited scope, then recurses
into the `allOf` sub-nodes.  Returns the updated registry and the cleaned
node. -/
def validateAndRegisterProperties (reg : ConfigurationRegistry)
    (node : IConfigurationNode) (validate : Bool) (extensionInfo : Option Nat)
    (restrictedProperties : Option (List String)) (scope : ConfigurationScope) :
    ConfigurationRegistry × IConfigurationNode :=
  match node with
  | .mk nscope props allOf einfo rprops =>
      let scope2 := nscope.getD scope
      let r1 := processProperties reg props validate extensionInfo restrictedProperties scope2
      let r2 := registerSubNodes r1.1 allOf validate extensionInfo restrictedProperties scope2
      (r2.1, .mk nscope r1.2 r2.2 einfo rprops)
  termination_by sizeOf node
  decreasing_by all_goals (simp_wf; omega)

/-- Processes the `allOf` sub-nodes in order. -/
def registerSubNodes (reg : ConfigurationRegistry) (nodes : List IConfigurationNode)
    (validate : Bool) (extensionInfo : Option Nat)
    (restrictedProperties : Option (List String)) (scope : ConfigurationScope) :
    ConfigurationRegistry × List IConfigurationNode :=
  match nodes with
  | [] => (reg, [])
  | n :: rest =>
      let r1 := validateAndRegisterProperties reg n validate extensionInfo
        restrictedProperties scope
      let r2 := registerSubNodes r1.1 rest validate extensionInfo restrictedProperties scope
      (r2.1, r1.2 :: r2.2)
  termination_by sizeOf nodes
  decreasing_by all_goals simp_wf <;> omega
end

/-- Mirrors registerConfiguration and doRegisterConfigurations (telemetry.ts
lines 221-232 and 389-398) for a single node: the scope defaults to WINDOW
at the root; the contributor list, JSON-schema registration and events are
omitted. -/
def registerConfiguration (reg : ConfigurationRegistry) (node : IConfigurationNode)
    (validate : Bool) : ConfigurationRegistry × IConfigurationNode :=
  validateAndRegisterProperties reg node validate node.extensionInfo
    node.restrictedProperties ConfigurationScope.WINDOW

end ConfigurationRegistry

/-! Shared lemmas about association lists. -/

theorem lookupAssoc_setAssoc_self {α : Type} (l : List (String × α)) (k : String) (v : α) :
    lookupAssoc (setAssoc l k v) k = some v := by
  induction l with
  | nil => simp [setAssoc, lookupAssoc]
  | cons p rest ih =>
      obtain ⟨a, b⟩ := p
      by_cases h : a = k <;> simp [setAssoc, lookupAssoc, h, ih]

theorem lookupAssoc_setAssoc_ne {α : Type} (l : List (String × α)) (k k' : String) (v : α)
    (h : k' ≠ k) : lookupAssoc (setAssoc l k v) k' = lookupAssoc l k' := by
  have hne : ¬ k = k' := fun hh => h hh.symm
  induction l with
  | nil => simp [setAssoc, lookupAssoc, hne]
  | cons p rest ih =>
      obtain ⟨a, b⟩ := p
      by_cases ha : a = k
      · subst ha
        simp [setAssoc, lookupAssoc, hne]
      · simp [setAssoc, lookupAssoc, ha, ih]

theorem lookupField_setField_self (l : ObjMap) (k : String) (v : JVal) :
    lookupField (setField l k v) k = some v := by
  induction l with
  | nil => simp [setField, lookupField]
  | cons p rest ih =>
      obtain ⟨a, b⟩ := p
      by_cases h : a = k <;> simp [setField, lookupField, h, ih]

theorem lookupField_setField_ne (l : ObjMap) (k k' : String) (v : JVal)
    (h : k' ≠ k) : lookupField (setField l k v) k' = lookupField l k' := by
  have hne : ¬ k = k' := fun hh => h hh.symm
  induction l with
  | nil => simp [setField, lookupField, hne]
  | cons p rest ih =>
      obtain ⟨a, b⟩ := p
      by_cases ha : a = k
      · subst ha
        simp [setField, lookupField, hne]
      · simp [setField, lookupField, ha, ih]

/-! Claim C9. -/

/-- C9: for every Configuration, getValue with a resource but an undefined
workspace ignores the folder configuration and the per-resource memory
model, so the result equals getValue without a resource; symmetrically a
workspace without a resource changes nothing, so the per-resource memory
layer takes effect only when both a workspace and a resource are
supplied. -/
theorem claim9_resource_needs_workspace (c : Configuration) (k : String)
    (id : Option String) (r : String) (w : Option Workspace) :
    c.getValue k { overrideIdentifier := id, resource := some r } none =
      c.getValue k { overrideIdentifier := id, resource := none } none ∧
    c.getValue k { overrideIdentifier := id, resource := none } w =
      c.getValue k { overrideIdentifier := id, resource := none } none := by
  constructor
  · rfl
  · cases w <;> rfl

/-! Claim C5. -/

/-- A small non-empty configuration model used as a concrete input. -/
def sampleModel : ConfigurationModel := ⟨[("x", .num 1)], ["x"], []⟩

/-- A configuration whose consolidation caches are both filled. -/
def cachedConfiguration : Configuration :=
  { _defaultConfiguration := sampleModel
    _policyConfiguration := ConfigurationModel.createEmptyModel
    _applicationConfiguration := ConfigurationModel.createEmptyModel
    _localUserConfiguration := ConfigurationModel.createEmptyModel
    _remoteUserConfiguration := ConfigurationModel.createEmptyModel
    _workspaceConfiguration := ConfigurationModel.createEmptyModel
    _folderConfigurations := [("folder", sampleModel)]
    _memoryConfiguration := ConfigurationModel.createEmptyModel
    _memoryConfigurationByResource := []
    _workspaceConsolidatedConfiguration := some sampleModel
    _foldersConsolidatedConfigurations := [("folder", sampleModel)] }

/-- C5 counterexample: the claim states that every memory mutation through
Configuration.updateValue sets both consolidation caches to empty.  On a
global memory write the code nulls only the workspace cache and leaves the
per-folder cache untouched, and on a per-resource write it invalidates
neither cache. -/
theorem claim5_counterexample :
    ((cachedConfiguration.updateValue "k" (some (.num 1))
        {})._foldersConsolidatedConfigurations =
      [("folder", sampleModel)] ∧
     [("folder", sampleModel)] ≠ ([] : List (String × ConfigurationModel))) ∧
    ((cachedConfiguration.updateValue "k" (some (.num 1))
        { resource := some "res" })._workspaceConsolidatedConfiguration =
      some sampleModel ∧
     some sampleModel ≠ (none : Option ConfigurationModel)) := by
  refine ⟨⟨?_, by simp⟩, ⟨?_, by simp⟩⟩ <;> rfl

/-- C5 as amended: Configuration.updateValue nulls the consolidated
workspace cache exactly when no resource is supplied, and never touches the
per-folder consolidation cache; the caches are therefore not both emptied
on every memory mutation. -/
theorem claim5_amended_cache_invalidation (c : Configuration) (key : String)
    (value : Option JVal) (ov : IConfigurationUpdateOverrides) :
    (c.updateValue key value ov)._foldersConsolidatedConfigurations =
      c._foldersConsolidatedConfigurations ∧
    (c.updateValue key value ov)._workspaceConsolidatedConfiguration =
      (match ov.resource with
       | none => none
       | some _ => c._workspaceConsolidatedConfiguration) := by
  obtain ⟨r⟩ := ov
  cases r <;> cases value <;> simp [Configuration.updateValue]

/-! Claim C10. -/

/-- The memory model an update targets: the per-resource model when a
resource is supplied (an empty model when none exists yet for that
resource), else the global memory model. -/
def Configuration.targetMemory (c : Configuration) (ov : IConfigurationUpdateOverrides) :
    ConfigurationModel :=
  match ov.resource with
  | some r => (lookupAssoc c._memoryConfigurationByResource r).getD
      ConfigurationModel.createEmptyModel
  | none => c._memoryConfiguration

/-- A configuration whose only non-empty layer is a defaults layer with the
scalar key `a`. -/
def c10Configuration : Configuration :=
  { _defaultConfiguration := ⟨[("a", .num 7)], ["a"], []⟩
    _policyConfiguration := ConfigurationModel.createEmptyModel
    _applicationConfiguration := ConfigurationModel.createEmptyModel
    _localUserConfiguration := ConfigurationModel.createEmptyModel
    _remoteUserConfiguration := ConfigurationModel.createEmptyModel
    _workspaceConfiguration := ConfigurationModel.createEmptyModel
    _folderConfigurations := []
    _memoryConfiguration := ConfigurationModel.createEmptyModel
    _memoryConfigurationByResource := [] }

/-- The configuration after writing the dotted key `a.b` into global memory
and then updating key `a` with an undefined value. -/
def c10Updated : Configuration :=
  (c10Configuration.updateValue "a.b" (some (.num 1)) {}).updateValue "a" none {}

/-- C10 counterexample: the claim states that updateValue with an undefined
value removes the key from the targeted memory model so that getValue falls
back to the lower-priority layers.  After setting memory key `a.b`,
updating key `a` with undefined is a no-op (because `a` is not listed in
the memory model's keys, even though its contents tree defines `a`), so
getValue of `a` still answers from memory and does not fall back to the
defaults value 7. -/
theorem claim10_counterexample :
    c10Updated.getValue "a" {} none = some (.obj [("b", .num 1)]) ∧
    some (JVal.obj [("b", .num 1)]) ≠ some (JVal.num 7) ∧
    c10Configuration.getValue "a" {} none = some (.num 7) := by
  refine ⟨?_, by simp, ?_⟩ <;>
    simp [c10Updated, c10Configuration, Configuration.updateValue,
      ConfigurationModel.setValue, ConfigurationModel.updateValue,
      ConfigurationModel.removeValue, addToValueTree, addSegments, splitPath, splitOnChar,
      lookupField, setField, isOverrideKey, parseGroups, parseGroupsState,
      ConfigurationModel.createEmptyModel, Configuration.getValue,
      Configuration.getConsolidatedConfigurationModel,
      Configuration.getConsolidatedConfigurationModelForResource,
      Configuration.getWorkspaceConsolidatedConfiguration, Configuration.userConfiguration,
      ConfigurationModel.isEmpty, ConfigurationModel.merge, ConfigurationModel.getValue,
      getConfigurationValue, walkPath, mergeContents, mergeField, appendUnique,
      ConfigurationModel.replaceFirstOverride]

/-- C10 as amended: updateValue with an undefined value applies removeValue
to the targeted memory model (global, or per-resource when a resource is
supplied) rather than storing undefined, and any defined value, null
included, is stored via setValue; removing a key that is not listed in the
memory model's keys is a no-op, even when nested entries recorded under
longer dotted keys still define it. -/
theorem claim10_amended_undefined_removes (c : Configuration) (key : String) (v : JVal)
    (ov : IConfigurationUpdateOverrides) :
    Configuration.targetMemory (c.updateValue key none ov) ov =
      (Configuration.targetMemory c ov).removeValue key ∧
    Configuration.targetMemory (c.updateValue key (some v) ov) ov =
      (Configuration.targetMemory c ov).setValue key v ∧
    (key ∉ (Configuration.targetMemory c ov).keys →
      Configuration.targetMemory (c.updateValue key none ov) ov =
        Configuration.targetMemory c ov) := by
  obtain ⟨r⟩ := ov
  cases r with
  | none =>
      refine ⟨rfl, rfl, ?_⟩
      intro h
      simp [Configuration.targetMemory] at h
      simp [Configuration.updateValue, Configuration.targetMemory,
        ConfigurationModel.removeValue, h]
  | some res =>
      refine ⟨?_, ?_, ?_⟩
      · simp [Configuration.updateValue, Configuration.targetMemory, lookupAssoc_setAssoc_self]
      · simp [Configuration.updateValue, Configuration.targetMemory, lookupAssoc_setAssoc_self]
      · intro h
        simp [Configuration.targetMemory] at h
        simp [Configuration.updateValue, Configuration.targetMemory, lookupAssoc_setAssoc_self,
          ConfigurationModel.removeValue, h]

/-- C10 witness: the amended theorem applied to the cached sample
configuration at key `a` with the global memory target. -/
theorem claim10_amended_witness :
    ("a" ∉ (Configuration.targetMemory cachedConfiguration {}).keys) ∧
    Configuration.targetMemory (cachedConfiguration.updateValue "a" none {}) {} =
      Configuration.targetMemory cachedConfiguration {} := by
  have h : "a" ∉ (Configuration.targetMemory cachedConfiguration {}).keys := by
    simp [Configuration.targetMemory, cachedConfiguration, ConfigurationModel.createEmptyModel]
  exact ⟨h, (claim10_amended_undefined_removes cachedConfiguration "a" (.num 0) {}).2.2 h⟩

/-! Claim C2. -/

theorem distinctAux_mem [DecidableEq α] (seen l : List α) (a : α) :
    a ∈ distinctAux seen l ↔ a ∈ l ∧ a ∉ seen := by
  induction l generalizing seen with
  | nil => simp [distinctAux]
  | cons b rest ih =>
      by_cases hb : b ∈ seen
      · rw [distinctAux, if_pos hb, ih]
        constructor
        · rintro ⟨hm, hs⟩
          exact ⟨List.mem_cons_of_mem _ hm, hs⟩
        · rintro ⟨hm, hs⟩
          rcases List.mem_cons.mp hm with hab | hm2
          · exact absurd (hab ▸ hb) hs
          · exact ⟨hm2, hs⟩
      · rw [distinctAux, if_neg hb]
        constructor
        · intro hmem
          rcases List.mem_cons.mp hmem with hab | hm2
          · subst hab
            exact ⟨List.mem_cons_self _ _, hb⟩
          · obtain ⟨hm3, hs3⟩ := (ih (b :: seen)).mp hm2
            exact ⟨List.mem_cons_of_mem _ hm3,
              fun hh => hs3 (List.mem_cons_of_mem _ hh)⟩
        · rintro ⟨hm, hs⟩
          rcases List.mem_cons.mp hm with hab | hm2
          · subst hab
            exact List.mem_cons_self _ _
          · by_cases hab2 : a = b
            · subst hab2
              exact List.mem_cons_self _ _
            · refine List.mem_cons_of_mem _ ((ih (b :: seen)).mpr ⟨hm2, fun hh => ?_⟩)
              rcases List.mem_cons.mp hh with h1 | h1
              · exact hab2 h1
              · exact hs h1

theorem distinctAux_nodup [DecidableEq α] (seen l : List α) :
    (distinctAux seen l).Nodup := by
  induction l generalizing seen with
  | nil => simp [distinctAux]
  | cons b rest ih =>
      by_cases hb : b ∈ seen
      · simpa [distinctAux, if_pos hb] using ih seen
      · simp only [distinctAux, if_neg hb, List.nodup_cons]
        refine ⟨fun hh => ?_, ih (b :: seen)⟩
        exact ((distinctAux_mem (b :: seen) rest b).mp hh).2 (List.mem_cons_self b _)

theorem distinctList_nodup [DecidableEq α] (l : List α) : (distinctList l).Nodup :=
  distinctAux_nodup [] l

theorem distinctList_mem [DecidableEq α] (l : List α) (a : α) :
    a ∈ distinctList l ↔ a ∈ l := by
  simp [distinctList, distinctAux_mem]

theorem lookupField_isSome_iff_mem (l : ObjMap) (key : String) :
    (lookupField l key).isSome ↔ key ∈ l.map Prod.fst := by
  induction l with
  | nil => simp [lookupField]
  | cons p rest ih =>
      obtain ⟨a, b⟩ := p
      by_cases h : a = key
      · subst h
        simp [lookupField]
      · simp [lookupField, h, ih, Ne.symm h]

theorem lookupField_filterMap_rule (L : List String) (f : String → Option JVal)
    (key : String) (hnd : L.Nodup) :
    lookupField (L.filterMap (fun k => (f k).map (fun v => (k, v)))) key =
      if key ∈ L then f key else none := by
  induction L with
  | nil => simp [lookupField]
  | cons a rest ih =>
      obtain ⟨ha, hrest⟩ := List.nodup_cons.mp hnd
      by_cases hk : key = a
      · subst hk
        cases hfa : f key with
        | none =>
            simp only [List.filterMap_cons, hfa, Option.map_none']
            rw [ih hrest]
            simp [ha, hfa]
        | some v =>
            simp [List.filterMap_cons, hfa, lookupField]
      · cases hfa : f a with
        | none =>
            simp only [List.filterMap_cons, hfa, Option.map_none']
            rw [ih hrest]
            simp [List.mem_cons, hk]
        | some v =>
            simp only [List.filterMap_cons, hfa, Option.map_some', lookupField]
            rw [if_neg (fun hh => hk hh.symm), ih hrest]
            simp [List.mem_cons, hk]

/-- The per-top-level-key projection rule of
createOverrideConfigurationModel, stated independently: a truthy override
value wins except that two plain objects deep-merge; a falsy override value
keeps the base value; keys without an override value keep the base value. -/
def overrideProjectionRule (oc base : ObjMap) (key : String) : Option JVal :=
  match lookupField oc key, lookupField base key with
  | some ov, some bv =>
      if ov.truthy then
        match bv, ov with
        | .obj bf, .obj ovf => some (.obj (mergeContents bf ovf))
        | _, _ => some ov
      else some bv
  | some ov, none => if ov.truthy then some ov else none
  | none, some bv => some bv
  | none, none => none

/-- The body of the per-key loop of createOverrideConfigurationModel equals
the projection rule, with the looped key attached. -/
theorem overrideBody_eq_rule (oc base : ObjMap) (k : String) :
    (match lookupField oc k with
     | some ov =>
         if ov.truthy then
           match lookupField base k, ov with
           | some (.obj bf), .obj ovf => some (k, JVal.obj (mergeContents bf ovf))
           | _, _ => some (k, ov)
         else
           match lookupField base k with
           | some bv => some (k, bv)
           | none => none
     | none =>
         match lookupField base k with
         | some bv => some (k, bv)
         | none => none) =
      (overrideProjectionRule oc base k).map (fun v => (k, v)) := by
  unfold overrideProjectionRule
  cases hlo : lookupField oc k with
  | none => cases hlb : lookupField base k <;> simp
  | some ov =>
      cases hlb : lookupField base k with
      | none =>
          by_cases ht : ov.truthy
          · cases ov <;> simp_all
          · simp [ht]
      | some bv =>
          by_cases ht : ov.truthy
          · cases ov <;> cases bv <;> simp_all
          · simp [ht]

/-- C2 as amended: for a matching identifier (a non-empty merged override
section), every top-level key of the derived model resolves by the
projection rule, in which a falsy override value (such as 0, false or the
empty string) keeps the base value instead of winning; an identifier with
no matching override section (or an empty merged section) leaves the model
itself, so every value equals the base value. -/
theorem claim2_amended_override_projection (m : ConfigurationModel) (id : String)
    (key : String) :
    (∀ oc, m.getContentsForOverrideIdentifer id = some oc → oc ≠ [] →
      lookupField (m.override id).contents key = overrideProjectionRule oc m.contents key) ∧
    (m.getContentsForOverrideIdentifer id = none → m.override id = m) := by
  constructor
  · intro oc hoc hne
    have hne2 : oc.isEmpty = false := by
      cases oc with
      | nil => exact absurd rfl hne
      | cons a l => rfl
    show lookupField (m.createOverrideConfigurationModel id).contents key = _
    unfold ConfigurationModel.createOverrideConfigurationModel
    rw [hoc]
    simp only [hne2, Bool.false_eq_true, if_false]
    have hfun :
        (fun k => match lookupField oc k with
         | some ov =>
             if ov.truthy then
               match lookupField m.contents k, ov with
               | some (.obj bf), .obj ovf => some (k, JVal.obj (mergeContents bf ovf))
               | _, _ => some (k, ov)
             else
               match lookupField m.contents k with
               | some bv => some (k, bv)
               | none => none
         | none =>
             match lookupField m.contents k with
             | some bv => some (k, bv)
             | none => none) =
        (fun k => (overrideProjectionRule oc m.contents k).map (fun v => (k, v))) := by
      funext k
      exact overrideBody_eq_rule oc m.contents k
    rw [hfun, lookupField_filterMap_rule _ _ key (distinctList_nodup _)]
    by_cases hmem : key ∈ distinctList (m.contents.map Prod.fst ++ oc.map Prod.fst)
    · rw [if_pos hmem]
    · rw [if_neg hmem]
      have hnb : lookupField m.contents key = none := by
        cases hx : lookupField m.contents key with
        | none => rfl
        | some v =>
            exfalso
            have hmem2 := (lookupField_isSome_iff_mem m.contents key).mp (by simp [hx])
            exact hmem ((distinctList_mem _ _).mpr (List.mem_append.mpr (Or.inl hmem2)))
      have hno : lookupField oc key = none := by
        cases hx : lookupField oc key with
        | none => rfl
        | some v =>
            exfalso
            have hmem2 := (lookupField_isSome_iff_mem oc key).mp (by simp [hx])
            exact hmem ((distinctList_mem _ _).mpr (List.mem_append.mpr (Or.inr hmem2)))
      unfold overrideProjectionRule
      rw [hnb, hno]
  · intro hnone
    show m.createOverrideConfigurationModel id = m
    unfold ConfigurationModel.createOverrideConfigurationModel
    rw [hnone]

/-- The base model of the override-projection example of the spec:
fontSize 12 with a typescript section setting fontSize 14. -/
def c2ExampleModel : ConfigurationModel :=
  ⟨[("fontSize", .num 12)], ["fontSize"],
   [⟨["typescript"], ["fontSize"], [("fontSize", .num 14)]⟩]⟩

/-- C2 witness: the amended theorem applied to the spec's own example.  The
typescript projection resolves fontSize to 14 and the unmatched python
identifier leaves the base model, so fontSize stays 12. -/
theorem claim2_amended_witness :
    (c2ExampleModel.getContentsForOverrideIdentifer "typescript" =
      some [("fontSize", .num 14)]) ∧
    lookupField (c2ExampleModel.override "typescript").contents "fontSize" =
      some (.num 14) ∧
    c2ExampleModel.getContentsForOverrideIdentifer "python" = none ∧
    c2ExampleModel.override "python" = c2ExampleModel ∧
    (c2ExampleModel.override "python").getValue "fontSize" = some (.num 12) := by
  have hts : c2ExampleModel.getContentsForOverrideIdentifer "typescript" =
      some [("fontSize", .num 14)] := by
    simp [c2ExampleModel, ConfigurationModel.getContentsForOverrideIdentifer]
  have hpy : c2ExampleModel.getContentsForOverrideIdentifer "python" = none := by
    simp [c2ExampleModel, ConfigurationModel.getContentsForOverrideIdentifer]
  have h1 := (claim2_amended_override_projection c2ExampleModel "typescript" "fontSize").1
    [("fontSize", .num 14)] hts (by simp)
  have h2 := (claim2_amended_override_projection c2ExampleModel "python" "fontSize").2 hpy
  refine ⟨hts, ?_, hpy, h2, ?_⟩
  · rw [h1]
    simp [overrideProjectionRule, c2ExampleModel, lookupField, JVal.truthy]
  · rw [h2]
    simp [c2ExampleModel, ConfigurationModel.getValue, getConfigurationValue, splitPath,
      splitOnChar, walkPath, lookupField]

/-- A model whose typescript section sets fontSize to the falsy value 0. -/
def c2FalsyModel : ConfigurationModel :=
  ⟨[("fontSize", .num 12)], ["fontSize"],
   [⟨["typescript"], ["fontSize"], [("fontSize", .num 0)]⟩]⟩

/-- C2 counterexample: the claim states that when base and override are not
both object-valued, the projected value is the override section's value
whenever the section defines one.  The typescript section defines fontSize
as 0, but the code's truthiness guard keeps the base value 12. -/
theorem claim2_counterexample :
    c2FalsyModel.getContentsForOverrideIdentifer "typescript" =
      some [("fontSize", .num 0)] ∧
    (c2FalsyModel.override "typescript").getValue "fontSize" = some (.num 12) ∧
    some (JVal.num 12) ≠ some (JVal.num 0) := by
  refine ⟨?_, ?_, by simp⟩
  · simp [c2FalsyModel, ConfigurationModel.getContentsForOverrideIdentifer]
  · simp [c2FalsyModel, ConfigurationModel.override,
      ConfigurationModel.createOverrideConfigurationModel,
      ConfigurationModel.getContentsForOverrideIdentifer, distinctList, distinctAux,
      lookupField, JVal.truthy, ConfigurationModel.getValue, getConfigurationValue,
      splitPath, splitOnChar, walkPath]

/-! Claim C3. -/

theorem wfb_obj_iff (fields : ObjMap) :
    (JVal.obj fields).wfb = true ↔
      (fields.map Prod.fst).Nodup ∧ wfbFields fields = true := by
  rw [JVal.wfb]
  simp

theorem wfbFields_lookup {fields : ObjMap} {k : String} {v : JVal}
    (hf : wfbFields fields = true) (hl : lookupField fields k = some v) :
    v.wfb = true := by
  induction fields with
  | nil => simp [lookupField] at hl
  | cons p rest ih =>
      obtain ⟨a, b⟩ := p
      rw [wfbFields] at hf
      simp only [Bool.and_eq_true] at hf
      rw [lookupField] at hl
      by_cases h : a = k
      · rw [if_pos h] at hl
        cases hl
        exact hf.1
      · rw [if_neg h] at hl
        exact ih hf.2 hl

theorem lookupField_eq_none_iff (l : ObjMap) (k : String) :
    lookupField l k = none ↔ k ∉ l.map Prod.fst := by
  constructor
  · intro h hmem
    have := (lookupField_isSome_iff_mem l k).mpr hmem
    rw [h] at this
    simp at this
  · intro h
    cases hx : lookupField l k with
    | none => rfl
    | some v =>
        exact absurd ((lookupField_isSome_iff_mem l k).mp (by simp [hx])) h

theorem lookupField_mergeField_self (s : ObjMap) (k : String) (tv : JVal) :
    lookupField (mergeField s k tv) k =
      match lookupField s k, tv with
      | some (.obj sf), .obj tf => some (.obj (mergeContents sf tf))
      | _, _ => some tv := by
  rw [mergeField]
  cases hs : lookupField s k with
  | none => simp [lookupField_setField_self]
  | some sv => cases sv <;> cases tv <;> simp [lookupField_setField_self]

theorem lookupField_mergeField_ne (s : ObjMap) (k k' : String) (tv : JVal)
    (h : k' ≠ k) : lookupField (mergeField s k tv) k' = lookupField s k' := by
  rw [mergeField]
  cases hs : lookupField s k with
  | none => exact lookupField_setField_ne _ _ _ _ h
  | some sv =>
      cases sv <;> cases tv <;> simp [lookupField_setField_ne _ _ _ _ h]

/-- The key lemma about mergeContents: a lookup in the merged object is the
target's value, except that two plain objects merge recursively, and keys
absent from the target keep the source's value.  Requires unique keys in
the target (JavaScript objects guarantee this). -/
theorem lookupField_mergeContents (s t : ObjMap) (k : String)
    (hnd : (t.map Prod.fst).Nodup) :
    lookupField (mergeContents s t) k =
      match lookupField t k with
      | none => lookupField s k
      | some tv =>
          match lookupField s k, tv with
          | some (.obj sf), .obj tf => some (.obj (mergeContents sf tf))
          | _, _ => some tv := by
  induction t generalizing s with
  | nil => simp [mergeContents, lookupField]
  | cons p rest ih =>
      obtain ⟨k0, tv0⟩ := p
      have hnd1 : (k0 :: rest.map Prod.fst).Nodup := by simpa using hnd
      have hnd2 : k0 ∉ rest.map Prod.fst ∧ (rest.map Prod.fst).Nodup :=
        List.nodup_cons.mp hnd1
      rw [show mergeContents s ((k0, tv0) :: rest) =
            mergeContents (mergeField s k0 tv0) rest from by rw [mergeContents]]
      rw [ih (mergeField s k0 tv0) hnd2.2]
      by_cases hk : k = k0
      · subst hk
        have hrest : lookupField rest k = none :=
          (lookupField_eq_none_iff rest k).mpr hnd2.1
        rw [hrest, lookupField, if_pos rfl, lookupField_mergeField_self]
      · rw [lookupField, if_neg (fun hh => hk hh.symm)]
        cases hx : lookupField rest k with
        | none => rw [lookupField_mergeField_ne s k0 k tv0 hk]
        | some tv => rw [lookupField_mergeField_ne s k0 k tv0 hk]

/-- Merging preserves defined scalar values of the higher-priority side:
when the target resolves a path to a non-object value, the merged value at
that path is exactly the target's value, whatever the source holds. -/
theorem walkPath_merge_scalar_wins (p : List String) :
    ∀ (a b pv : JVal), b.wfb = true → walkPath b p = some pv → pv.isObj = false →
      walkPath (mergeValueInto a b) p = some pv := by
  induction p with
  | nil =>
      intro a b pv hwf hw hs
      simp only [walkPath, Option.some.injEq] at hw
      subst hw
      cases a <;> cases b <;> simp_all [mergeValueInto, walkPath, JVal.isObj]
  | cons seg rest ih =>
      intro a b pv hwf hw hs
      cases b with
      | obj bf =>
          simp only [walkPath] at hw
          cases hlb : lookupField bf seg with
          | none => rw [hlb] at hw; simp at hw
          | some bv =>
              rw [hlb] at hw
              obtain ⟨hbnd, hbfields⟩ := (wfb_obj_iff bf).mp hwf
              have hwfbv : bv.wfb = true := wfbFields_lookup hbfields hlb
              cases a with
              | obj af =>
                  show walkPath (.obj (mergeContents af bf)) (seg :: rest) = some pv
                  simp only [walkPath]
                  rw [lookupField_mergeContents af bf seg hbnd, hlb]
                  cases hla : lookupField af seg with
                  | none =>
                      cases bv <;> simp_all [walkPath]
                  | some av =>
                      cases av with
                      | obj avf =>
                          cases bv with
                          | obj bvf =>
                              simpa [mergeValueInto] using
                                ih (.obj avf) (.obj bvf) pv hwfbv hw hs
                          | null => simpa using hw
                          | bool b2 => simpa using hw
                          | num n2 => simpa using hw
                          | str s2 => simpa using hw
                          | arr e2 => simpa using hw
                      | null => cases bv <;> simpa using hw
                      | bool b2 => cases bv <;> simpa using hw
                      | num n2 => cases bv <;> simpa using hw
                      | str s2 => cases bv <;> simpa using hw
                      | arr e2 => cases bv <;> simpa using hw
              | null =>
                  show walkPath (.obj bf) (seg :: rest) = some pv
                  simp only [walkPath]
                  rw [hlb]
                  exact hw
              | bool b2 =>
                  show walkPath (.obj bf) (seg :: rest) = some pv
                  simp only [walkPath]
                  rw [hlb]
                  exact hw
              | num n2 =>
                  show walkPath (.obj bf) (seg :: rest) = some pv
                  simp only [walkPath]
                  rw [hlb]
                  exact hw
              | str s2 =>
                  show walkPath (.obj bf) (seg :: rest) = some pv
                  simp only [walkPath]
                  rw [hlb]
                  exact hw
              | arr e2 =>
                  show walkPath (.obj bf) (seg :: rest) = some pv
                  simp only [walkPath]
                  rw [hlb]
                  exact hw
      | null => simp [walkPath] at hw
      | bool b2 => simp [walkPath] at hw
      | num n2 => simp [walkPath] at hw
      | str s2 => simp [walkPath] at hw
      | arr e2 => simp [walkPath] at hw

theorem splitOnChar_ne_nil (c : Char) (cs : List Char) : splitOnChar c cs ≠ [] := by
  cases cs with
  | nil => simp [splitOnChar]
  | cons x rest =>
      rw [splitOnChar]
      by_cases h : x = c
      · simp [h]
      · rw [if_neg h]
        cases hx : splitOnChar c rest with
        | nil => simp
        | cons l ls => simp

theorem splitPath_ne_nil (s : String) : splitPath s ≠ [] := by
  unfold splitPath
  intro h
  exact splitOnChar_ne_nil '.' s.data (List.map_eq_nil_iff.mp h)

/-- C3 as amended: whenever the policy layer defines a non-object value for
the queried key, Configuration.getValue returns exactly the policy value,
whatever the application, user, workspace, folder and memory layers define,
and for every resource and override identifier.  (For an object-valued
policy value the policy is deep-merged on top of the consolidated value,
winning per leaf, so the result can pick up extra leaves from lower
layers.) -/
theorem claim3_amended_policy_precedence (c : Configuration) (k : String)
    (ov : IConfigurationOverrides) (w : Option Workspace) (pv : JVal)
    (hwf : WFfields c._policyConfiguration.contents)
    (hdef : c._policyConfiguration.getValue k = some pv)
    (hscalar : pv.isObj = false) :
    c.getValue k ov w = some pv := by
  have hdefw : walkPath (.obj c._policyConfiguration.contents) (splitPath k) = some pv := hdef
  have hcne : c._policyConfiguration.contents ≠ [] := by
    intro hnil
    rw [hnil] at hdefw
    cases hp : splitPath k with
    | nil => exact splitPath_ne_nil k hp
    | cons a l =>
        rw [hp] at hdefw
        simp [walkPath, lookupField] at hdefw
  have hempty : c._policyConfiguration.isEmpty = false := by
    unfold ConfigurationModel.isEmpty
    cases hc : c._policyConfiguration.contents with
    | nil => exact absurd hc hcne
    | cons a l => simp [hc]
  unfold Configuration.getValue Configuration.getConsolidatedConfigurationModel
  rw [hempty, hdef]
  simp only [Bool.not_false, Option.isSome_some, Bool.and_self, if_true]
  unfold ConfigurationModel.merge
  rw [List.foldl_cons, List.foldl_nil, hempty]
  simp only [Bool.false_eq_true, if_false]
  show walkPath (.obj (mergeContents _ c._policyConfiguration.contents)) (splitPath k) =
    some pv
  exact walkPath_merge_scalar_wins (splitPath k) (.obj _)
    (.obj c._policyConfiguration.contents) pv hwf hdefw hscalar

/-- A configuration whose policy layer holds an object value for key k and
whose workspace layer holds a different object for the same key. -/
def c3Configuration : Configuration :=
  { _defaultConfiguration := ConfigurationModel.createEmptyModel
    _policyConfiguration := ⟨[("k", .obj [("a", .num 1)])], ["k"], []⟩
    _applicationConfiguration := ConfigurationModel.createEmptyModel
    _localUserConfiguration := ConfigurationModel.createEmptyModel
    _remoteUserConfiguration := ConfigurationModel.createEmptyModel
    _workspaceConfiguration := ⟨[("k", .obj [("b", .num 2)])], ["k"], []⟩
    _folderConfigurations := []
    _memoryConfiguration := ConfigurationModel.createEmptyModel
    _memoryConfigurationByResource := [] }

/-- C3 counterexample: the claim states that getValue returns the policy
layer's value for a key whenever the policy defines one.  With an
object-valued policy value the code deep-merges policy on top of the
consolidated value, so getValue returns the merge of the workspace and
policy objects, not the policy value alone. -/
theorem claim3_counterexample :
    c3Configuration._policyConfiguration.getValue "k" = some (.obj [("a", .num 1)]) ∧
    c3Configuration.getValue "k" {} none = some (.obj [("b", .num 2), ("a", .num 1)]) ∧
    some (JVal.obj [("b", .num 2), ("a", .num 1)]) ≠ some (JVal.obj [("a", .num 1)]) := by
  refine ⟨by rfl, ?_, by simp⟩
  simp [c3Configuration, Configuration.getValue,
    Configuration.getConsolidatedConfigurationModel,
    Configuration.getConsolidatedConfigurationModelForResource,
    Configuration.getWorkspaceConsolidatedConfiguration, Configuration.userConfiguration,
    ConfigurationModel.isEmpty, ConfigurationModel.merge, ConfigurationModel.getValue,
    ConfigurationModel.createEmptyModel, getConfigurationValue, walkPath, splitPath,
    splitOnChar, lookupField, setField, mergeContents, mergeField, appendUnique,
    ConfigurationModel.replaceFirstOverride]

/-- A configuration whose policy layer holds a scalar for key k that every
other layer also defines. -/
def c3ScalarConfiguration : Configuration :=
  { _defaultConfiguration := ⟨[("k", .num 1)], ["k"], []⟩
    _policyConfiguration := ⟨[("k", .num 9)], ["k"], []⟩
    _applicationConfiguration := ⟨[("k", .num 2)], ["k"], []⟩
    _localUserConfiguration := ⟨[("k", .num 3)], ["k"], []⟩
    _remoteUserConfiguration := ConfigurationModel.createEmptyModel
    _workspaceConfiguration := ⟨[("k", .num 4)], ["k"], []⟩
    _folderConfigurations := []
    _memoryConfiguration := ⟨[("k", .num 5)], ["k"], []⟩
    _memoryConfigurationByResource := [] }

/-- C3 witness: the amended theorem applied to a configuration in which
defaults, application, user, workspace and memory all define key k, yet the
scalar policy value 9 wins. -/
theorem claim3_amended_witness :
    WFfields c3ScalarConfiguration._policyConfiguration.contents ∧
    c3ScalarConfiguration._policyConfiguration.getValue "k" = some (.num 9) ∧
    (JVal.num 9).isObj = false ∧
    c3ScalarConfiguration.getValue "k" {} none = some (.num 9) := by
  have h1 : WFfields c3ScalarConfiguration._policyConfiguration.contents := by
    show (JVal.obj _).wfb = true
    rw [wfb_obj_iff]
    refine ⟨by simp [c3ScalarConfiguration], ?_⟩
    rw [c3ScalarConfiguration]
    rw [wfbFields, wfbFields]
    simp [JVal.wfb]
  have h2 : c3ScalarConfiguration._policyConfiguration.getValue "k" = some (.num 9) := rfl
  exact ⟨h1, h2, rfl,
    claim3_amended_policy_precedence c3ScalarConfiguration "k" {} none (.num 9) h1 h2 rfl⟩

/-! Claim C1. -/

/-- A value found in a deep merge at any path comes from the left operand,
from the right operand, or is an object assembled from both. -/
theorem walkPath_merge_cases :
    ∀ (q : List String) (a b v : JVal), b.wfb = true →
      walkPath (mergeValueInto a b) q = some v →
      walkPath a q = some v ∨ walkPath b q = some v ∨ v.isObj = true := by
  intro q
  induction q with
  | nil =>
      intro a b v hwb hm
      cases a <;> cases b <;>
        first
          | exact Or.inr (Or.inl hm)
          | exact Or.inr (Or.inr (by
              have hm2 : some (JVal.obj (mergeContents _ _)) = some v := hm
              cases Option.some.inj hm2
              rfl))
  | cons seg rest ih =>
      intro a b v hwb hm
      cases b with
      | obj bf =>
          cases a with
          | obj af =>
              obtain ⟨hbnd, hbfields⟩ := (wfb_obj_iff bf).mp hwb
              have hm1 : (match lookupField (mergeContents af bf) seg with
                  | some w => walkPath w rest
                  | none => none) = some v := hm
              rw [lookupField_mergeContents af bf seg hbnd] at hm1
              cases hlb : lookupField bf seg with
              | none =>
                  rw [hlb] at hm1
                  cases hla : lookupField af seg with
                  | none =>
                      rw [hla] at hm1
                      have hm3 : (none : Option JVal) = some v := hm1
                      cases hm3
                  | some av =>
                      rw [hla] at hm1
                      have hm3 : walkPath av rest = some v := hm1
                      left
                      simp only [walkPath, hla]
                      exact hm3
              | some bv =>
                  rw [hlb] at hm1
                  have hwbv : bv.wfb = true := wfbFields_lookup hbfields hlb
                  cases hla : lookupField af seg with
                  | none =>
                      rw [hla] at hm1
                      have hm3 : walkPath bv rest = some v := hm1
                      right; left
                      simp only [walkPath, hlb]
                      exact hm3
                  | some av =>
                      rw [hla] at hm1
                      have hm3 : walkPath (mergeValueInto av bv) rest = some v := by
                        cases av <;> cases bv <;> exact hm1
                      rcases ih av bv v hwbv hm3 with h | h | h
                      · left
                        simp only [walkPath, hla]
                        exact h
                      · right; left
                        simp only [walkPath, hlb]
                        exact h
                      · right; right; exact h
          | null => exact Or.inr (Or.inl hm)
          | bool x => exact Or.inr (Or.inl hm)
          | num x => exact Or.inr (Or.inl hm)
          | str x => exact Or.inr (Or.inl hm)
          | arr x => exact Or.inr (Or.inl hm)
      | null => cases a <;> exact Or.inr (Or.inl hm)
      | bool x => cases a <;> exact Or.inr (Or.inl hm)
      | num x => cases a <;> exact Or.inr (Or.inl hm)
      | str x => cases a <;> exact Or.inr (Or.inl hm)
      | arr x => cases a <;> exact Or.inr (Or.inl hm)

/-- When the right operand of a deep merge does not define a path and every
defined proper prefix of the path is object-valued on both sides, the merge
falls back to the left operand's value at that path. -/
theorem walkPath_merge_undef_fallback :
    ∀ (p : List String) (a b : JVal), b.wfb = true →
      (∀ i, i < p.length → ∀ v, walkPath a (p.take i) = some v → v.isObj = true) →
      (∀ i, i < p.length → ∀ v, walkPath b (p.take i) = some v → v.isObj = true) →
      walkPath b p = none →
      walkPath (mergeValueInto a b) p = walkPath a p := by
  intro p
  induction p with
  | nil =>
      intro a b _ _ _ hb
      simp only [walkPath] at hb
      cases hb
  | cons seg rest ih =>
      intro a b hwb hpa hpb hb
      have hbobj : b.isObj = true := hpb 0 (by simp) b (by simp [walkPath])
      cases b with
      | obj bf =>
          cases a with
          | obj af =>
              obtain ⟨hbnd, hbfields⟩ := (wfb_obj_iff bf).mp hwb
              have hb1 : (match lookupField bf seg with
                  | some w => walkPath w rest
                  | none => none) = none := hb
              show walkPath (.obj (mergeContents af bf)) (seg :: rest) =
                walkPath (.obj af) (seg :: rest)
              simp only [walkPath]
              rw [lookupField_mergeContents af bf seg hbnd]
              cases hlb : lookupField bf seg with
              | none => rfl
              | some bv =>
                  rw [hlb] at hb1
                  have hb2 : walkPath bv rest = none := hb1
                  have hwbv : bv.wfb = true := wfbFields_lookup hbfields hlb
                  cases hla : lookupField af seg with
                  | none =>
                      show walkPath bv rest = none
                      exact hb2
                  | some av =>
                      cases rest with
                      | nil =>
                          simp only [walkPath] at hb2
                          cases hb2
                      | cons r0 rs =>
                          have hbvo : bv.isObj = true := by
                            refine hpb 1 (by simp) bv ?_
                            simp only [List.take_succ_cons, List.take_zero, walkPath, hlb]
                          have havo : av.isObj = true := by
                            refine hpa 1 (by simp) av ?_
                            simp only [List.take_succ_cons, List.take_zero, walkPath, hla]
                          cases av with
                          | obj avf =>
                              cases bv with
                              | obj bvf =>
                                  show walkPath (JVal.obj (mergeContents avf bvf)) (r0 :: rs) =
                                    walkPath (JVal.obj avf) (r0 :: rs)
                                  refine ih (.obj avf) (.obj bvf) hwbv ?_ ?_ hb2
                                  · intro i hi v hv
                                    refine hpa (i + 1) (by simpa using Nat.succ_lt_succ hi) v ?_
                                    simp only [List.take_succ_cons, walkPath, hla]
                                    exact hv
                                  · intro i hi v hv
                                    refine hpb (i + 1) (by simpa using Nat.succ_lt_succ hi) v ?_
                                    simp only [List.take_succ_cons, walkPath, hlb]
                                    exact hv
                              | null => simp [JVal.isObj] at hbvo
                              | bool x => simp [JVal.isObj] at hbvo
                              | num x => simp [JVal.isObj] at hbvo
                              | str x => simp [JVal.isObj] at hbvo
                              | arr x => simp [JVal.isObj] at hbvo
                          | null => simp [JVal.isObj] at havo
                          | bool x => simp [JVal.isObj] at havo
                          | num x => simp [JVal.isObj] at havo
                          | str x => simp [JVal.isObj] at havo
                          | arr x => simp [JVal.isObj] at havo
          | null => exact hb
          | bool x => exact hb
          | num x => exact hb
          | str x => exact hb
          | arr x => exact hb
      | null => simp [JVal.isObj] at hbobj
      | bool x => simp [JVal.isObj] at hbobj
      | num x => simp [JVal.isObj] at hbobj
      | str x => simp [JVal.isObj] at hbobj
      | arr x => simp [JVal.isObj] at hbobj

/-- The claim's resolution rule, stated from the spec's words: the value of
key k taken from the highest-priority (latest) layer that defines k. -/
def lastDefinedValue (ms : List ConfigurationModel) (k : String) : Option JVal :=
  ms.foldl
    (fun acc m =>
      match m.getValue k with
      | some v => some v
      | none => acc)
    none

/-- An empty configuration model defines no key. -/
theorem getValue_of_isEmpty (m : ConfigurationModel) (k : String)
    (h : m.isEmpty = true) : m.getValue k = none := by
  unfold ConfigurationModel.isEmpty at h
  simp only [Bool.and_eq_true, List.isEmpty_iff] at h
  obtain ⟨⟨-, h2⟩, -⟩ := h
  show walkPath (.obj m.contents) (splitPath k) = none
  rw [h2]
  cases hp : splitPath k with
  | nil => exact absurd hp (splitPath_ne_nil k)
  | cons a l => simp [walkPath, lookupField]

/-- A layer whose value for k is undefined drops out of the resolution
rule. -/
theorem lastDefinedValue_skip (m1 m2 : ConfigurationModel)
    (ms : List ConfigurationModel) (k : String) (h : m2.getValue k = none) :
    lastDefinedValue (m1 :: m2 :: ms) k = lastDefinedValue (m1 :: ms) k := by
  unfold lastDefinedValue
  simp only [List.foldl_cons, h]

/-- Two adjacent layers collapse to one whose value follows the later-wins
rule. -/
theorem lastDefinedValue_collapse (m1 m2 m12 : ConfigurationModel)
    (ms : List ConfigurationModel) (k : String)
    (h : m12.getValue k =
      match m2.getValue k with
      | some v => some v
      | none => m1.getValue k) :
    lastDefinedValue (m12 :: ms) k = lastDefinedValue (m1 :: m2 :: ms) k := by
  unfold lastDefinedValue
  simp only [List.foldl_cons]
  rw [h]
  cases m2.getValue k <;> cases m1.getValue k <;> rfl

/-- C1 (amended): merging layers in priority order resolves a key to the
value of the highest-priority layer that defines it, provided the layers
are well-formed objects, the key's value is a scalar (non-object) in every
layer that defines it, and every defined proper prefix of the key's dotted
path is object-valued in every layer.  (Without the prefix condition a
later layer can shadow a prefix of the key with a scalar, making the merged
model drop the key entirely; see the counterexample.) -/
theorem claim1_amended_scalar_precedence (k : String) :
    ∀ (others : List ConfigurationModel) (base : ConfigurationModel),
      (∀ m ∈ others, (JVal.obj m.contents).wfb = true) →
      (∀ m, m ∈ base :: others → ∀ i, i < (splitPath k).length → ∀ v,
        walkPath (JVal.obj m.contents) ((splitPath k).take i) = some v →
          v.isObj = true) →
      (∀ m, m ∈ base :: others → ∀ v, m.getValue k = some v → v.isObj = false) →
      (base.merge others).getValue k = lastDefinedValue (base :: others) k := by
  intro others
  induction others with
  | nil =>
      intro base _ _ _
      unfold ConfigurationModel.merge lastDefinedValue
      simp only [List.foldl_nil, List.foldl_cons]
      cases h : base.getValue k <;> simp [h]
  | cons o os ih =>
      intro base hwf hpre hscal
      by_cases hoe : o.isEmpty = true
      · have hstep : ConfigurationModel.merge base (o :: os) =
            ConfigurationModel.merge base os := by
          unfold ConfigurationModel.merge
          rw [List.foldl_cons]
          simp [hoe]
        rw [hstep]
        have hov : o.getValue k = none := getValue_of_isEmpty o k hoe
        have hmemT : ∀ m, m ∈ base :: os → m ∈ base :: o :: os := by
          intro m hm
          rcases List.mem_cons.mp hm with rfl | hm2
          · exact List.mem_cons_self _ _
          · exact List.mem_cons_of_mem _ (List.mem_cons_of_mem _ hm2)
        have hIH := ih base (fun m hm => hwf m (List.mem_cons_of_mem o hm))
          (fun m hm => hpre m (hmemT m hm))
          (fun m hm => hscal m (hmemT m hm))
        rw [hIH]
        exact (lastDefinedValue_skip base o os k hov).symm
      · have hoe2 : o.isEmpty = false := by
          cases hx : o.isEmpty with
          | false => rfl
          | true => exact absurd hx hoe
        have hwfo : (JVal.obj o.contents).wfb = true := hwf o (List.mem_cons_self o os)
        have hstep : ConfigurationModel.merge base (o :: os) =
            ConfigurationModel.merge
              ⟨mergeContents base.contents o.contents,
               appendUnique base.keys o.keys,
               o.overrides.foldl ConfigurationModel.replaceFirstOverride base.overrides⟩
              os := by
          unfold ConfigurationModel.merge
          rw [List.foldl_cons]
          simp [hoe2]
        have hval : walkPath (.obj (mergeContents base.contents o.contents)) (splitPath k) =
            match walkPath (.obj o.contents) (splitPath k) with
            | some v => some v
            | none => walkPath (.obj base.contents) (splitPath k) := by
          cases hwo : walkPath (.obj o.contents) (splitPath k) with
          | some w =>
              exact walkPath_merge_scalar_wins (splitPath k) (.obj base.contents)
                (.obj o.contents) w hwfo hwo (hscal o (by simp) w hwo)
          | none =>
              exact walkPath_merge_undef_fallback (splitPath k) (.obj base.contents)
                (.obj o.contents) hwfo (hpre base (by simp)) (hpre o (by simp)) hwo
        have hpreM : ∀ m, m ∈ (⟨mergeContents base.contents o.contents,
              appendUnique base.keys o.keys,
              o.overrides.foldl ConfigurationModel.replaceFirstOverride base.overrides⟩ :
                ConfigurationModel) :: os →
            ∀ i, i < (splitPath k).length → ∀ v,
              walkPath (JVal.obj m.contents) ((splitPath k).take i) = some v →
                v.isObj = true := by
          intro m hm i hi v hv
          rcases List.mem_cons.mp hm with rfl | hm2
          · rcases walkPath_merge_cases ((splitPath k).take i) (.obj base.contents)
                (.obj o.contents) v hwfo hv with h | h | h
            · exact hpre base (by simp) i hi v h
            · exact hpre o (by simp) i hi v h
            · exact h
          · exact hpre m (by simp [hm2]) i hi v hv
        have hscalM : ∀ m, m ∈ (⟨mergeContents base.contents o.contents,
              appendUnique base.keys o.keys,
              o.overrides.foldl ConfigurationModel.replaceFirstOverride base.overrides⟩ :
                ConfigurationModel) :: os →
            ∀ v, m.getValue k = some v → v.isObj = false := by
          intro m hm v hv
          rcases List.mem_cons.mp hm with rfl | hm2
          · have hv2 : walkPath (.obj (mergeContents base.contents o.contents))
                (splitPath k) = some v := hv
            rw [hval] at hv2
            cases hwo : walkPath (.obj o.contents) (splitPath k) with
            | some w =>
                rw [hwo] at hv2
                have hv3 : some w = some v := hv2
                cases hv3
                exact hscal o (by simp) v hwo
            | none =>
                rw [hwo] at hv2
                exact hscal base (by simp) v hv2
          · exact hscal m (by simp [hm2]) v hv
        have hIH := ih
          ⟨mergeContents base.contents o.contents,
           appendUnique base.keys o.keys,
           o.overrides.foldl ConfigurationModel.replaceFirstOverride base.overrides⟩
          (fun m hm => hwf m (List.mem_cons_of_mem o hm)) hpreM hscalM
        rw [hstep, hIH]
        refine lastDefinedValue_collapse base o _ os k ?_
        exact hval

/-- A model defining "a.b" as the scalar 1 under the object "a". -/
def c1M1 : ConfigurationModel := ⟨[("a", .obj [("b", .num 1)])], ["a"], []⟩

/-- A higher-priority model defining "a" as the scalar 5 (and not defining
"a.b"). -/
def c1M2 : ConfigurationModel := ⟨[("a", .num 5)], ["a"], []⟩

/-- C1 counterexample: "a.b" is a scalar in every layer that defines it
(only the first layer defines it, as the scalar 1), so the claim predicts
that the merged model resolves "a.b" to 1.  The code instead lets the
higher-priority scalar 5 at the prefix "a" overwrite the whole object, so
the merged model does not define "a.b" at all. -/
theorem claim1_counterexample :
    c1M1.getValue "a.b" = some (.num 1) ∧
    (JVal.num 1).isObj = false ∧
    c1M2.getValue "a.b" = none ∧
    (c1M1.merge [c1M2]).getValue "a.b" = none := by
  refine ⟨rfl, rfl, rfl, ?_⟩
  simp [c1M1, c1M2, ConfigurationModel.merge, ConfigurationModel.isEmpty,
    ConfigurationModel.getValue, getConfigurationValue, walkPath, splitPath, splitOnChar,
    lookupField, setField, mergeContents, mergeField, appendUnique,
    ConfigurationModel.replaceFirstOverride]

/-- A base layer defining "a" as the scalar 1. -/
def c1W1 : ConfigurationModel := ⟨[("a", .num 1)], ["a"], []⟩

/-- A higher-priority layer defining "a" as the scalar 2. -/
def c1W2 : ConfigurationModel := ⟨[("a", .num 2)], ["a"], []⟩

/-- C1 witness: both layers define the scalar key "a", and the merged model
resolves it to the higher-priority value 2, matching the resolution rule. -/
theorem claim1_amended_witness :
    (c1W1.merge [c1W2]).getValue "a" = lastDefinedValue [c1W1, c1W2] "a" ∧
    lastDefinedValue [c1W1, c1W2] "a" = some (.num 2) := by
  constructor
  · refine claim1_amended_scalar_precedence "a" [c1W2] c1W1 ?_ ?_ ?_
    · intro m hm
      have hm2 : m = c1W2 := by simpa using hm
      subst hm2
      rw [c1W2]
      show (JVal.obj [("a", JVal.num 2)]).wfb = true
      rw [wfb_obj_iff]
      refine ⟨by simp, ?_⟩
      rw [wfbFields]
      simp [JVal.wfb, wfbFields]
    · intro m hm i hi v hv
      have hL : (splitPath "a").length = 1 := rfl
      rw [hL] at hi
      have hi0 : i = 0 := by omega
      subst hi0
      have hv2 : some (JVal.obj m.contents) = some v := hv
      cases hv2
      rfl
    · intro m hm v hv
      rcases List.mem_cons.mp hm with rfl | hm2
      · have hv2 : some (JVal.num 1) = some v := hv
        cases hv2
        rfl
      · have hm3 : m = c1W2 := by simpa using hm2
        subst hm3
        have hv2 : some (JVal.num 2) = some v := hv
        cases hv2
        rfl
  · rfl

/-! Claim C4. -/

namespace ConfigurationChangeEvent

/-- Appending to the haystack folds out of the marker-string construction. -/
theorem affectsConfigStr_foldl :
    ∀ (l : List String) (init : List Char),
      l.foldl (fun acc k => acc ++ k.data ++ ['\n']) init =
        init ++ l.flatMap (fun k => k.data ++ ['\n']) := by
  intro l
  induction l with
  | nil => intro init; simp
  | cons k rest ih =>
      intro init
      rw [List.foldl_cons, ih]
      simp

/-- The marker string is a leading marker followed by each key with a
trailing marker. -/
theorem affectsConfigStr_eq (change : IConfigurationChange) :
    affectsConfigStr change =
      '\n' :: (affectedKeysList change).flatMap (fun k => k.data ++ ['\n']) := by
  unfold affectsConfigStr
  rw [affectsConfigStr_foldl]
  rfl

/-- Indexing past a left part of an appended list. -/
theorem listGetAppendRight :
    ∀ (pre l : List Char) (i : Nat), (pre ++ l).get? (pre.length + i) = l.get? i := by
  intro pre
  induction pre with
  | nil => intro l i; simp
  | cons c p ih =>
      intro l i
      have h : (c :: p).length + i = (p.length + i) + 1 := by
        simp [List.length_cons]
        omega
      rw [h]
      show (p ++ l).get? (p.length + i) = l.get? i
      exact ih l i

/-- Indexing inside the left part of an appended list. -/
theorem listGetAppendLeft :
    ∀ (pre l : List Char) (i : Nat), i < pre.length → (pre ++ l).get? i = pre.get? i := by
  intro pre
  induction pre with
  | nil => intro l i hi; simp at hi
  | cons c p ih =>
      intro l i hi
      cases i with
      | zero => rfl
      | succ j =>
          show (p ++ l).get? j = p.get? j
          exact ih l j (by simp [List.length_cons] at hi; omega)

/-- Element lookup is the head of the dropped suffix. -/
theorem listGetDropHead :
    ∀ (l : List Char) (n : Nat), l.get? n = (l.drop n).head? := by
  intro l
  induction l with
  | nil => intro n; cases n <;> rfl
  | cons c t ih =>
      intro n
      cases n with
      | zero => rfl
      | succ m => show t.get? m = (t.drop m).head?; exact ih m

/-- A prefix of a list is a prefix of any extension of it. -/
theorem isPrefixOf_append_ext :
    ∀ (sd kd ext : List Char), sd.isPrefixOf kd = true →
      sd.isPrefixOf (kd ++ ext) = true := by
  intro sd
  induction sd with
  | nil => intro kd ext _; cases kd <;> cases ext <;> rfl
  | cons c sdt ih =>
      intro kd ext hp
      cases kd with
      | nil => simp [List.isPrefixOf] at hp
      | cons k kdt =>
          simp only [List.isPrefixOf, Bool.and_eq_true] at hp ⊢
          exact ⟨hp.1, ih kdt ext hp.2⟩

/-- A prefix of a newline-free list extended by a marker and anything is
already a prefix of the list, provided it is newline-free itself. -/
theorem isPrefixOf_append_newline :
    ∀ (sd kd rest : List Char), '\n' ∉ sd → '\n' ∉ kd →
      sd.isPrefixOf (kd ++ '\n' :: rest) = sd.isPrefixOf kd := by
  intro sd
  induction sd with
  | nil => intro kd rest _ _; cases kd <;> rfl
  | cons c sdt ih =>
      intro kd rest hs hk
      have hcne : c ≠ '\n' := fun hh => hs (by simp [hh])
      have hbc : ('\n' == c) = false := beq_eq_false_iff_ne.mpr (fun hh => hcne hh.symm)
      have hcb : (c == '\n') = false := beq_eq_false_iff_ne.mpr hcne
      cases kd with
      | nil =>
          simp only [List.nil_append]
          simp [List.isPrefixOf, hcb]
      | cons k kdt =>
          show (c == k && sdt.isPrefixOf (kdt ++ '\n' :: rest)) =
            (c == k && sdt.isPrefixOf kdt)
          rw [ih kdt rest (fun hh => hs (by simp [hh])) (fun hh => hk (by simp [hh]))]

/-- A full prefix of equal length is the whole list. -/
theorem isPrefixOf_drop_nil :
    ∀ (sd kd : List Char), sd.isPrefixOf kd = true → kd.drop sd.length = [] →
      sd = kd := by
  intro sd
  induction sd with
  | nil =>
      intro kd _ hd
      simpa using hd.symm
  | cons c sdt ih =>
      intro kd hp hd
      cases kd with
      | nil => simp [List.isPrefixOf] at hp
      | cons k kdt =>
          simp only [List.isPrefixOf, Bool.and_eq_true, beq_iff_eq] at hp
          have := ih kdt hp.2 hd
          rw [hp.1, this]

/-- The scan skips over the characters of a newline-free key, shifting the
found index by the key's length. -/
theorem findSubstr_key_chars :
    ∀ (kd : List Char), '\n' ∉ kd → ∀ (sd tail : List Char),
      findSubstr ('\n' :: sd) (kd ++ '\n' :: tail) =
        (findSubstr ('\n' :: sd) ('\n' :: tail)).map (· + kd.length) := by
  intro kd
  induction kd with
  | nil =>
      intro _ sd tail
      simp only [List.nil_append]
      cases findSubstr ('\n' :: sd) ('\n' :: tail) <;> rfl
  | cons c kdt ih =>
      intro hk sd tail
      have hcne : c ≠ '\n' := fun hh => hk (by simp [hh])
      have hbc : ('\n' == c) = false := beq_eq_false_iff_ne.mpr (fun hh => hcne hh.symm)
      have hpre : ('\n' :: sd).isPrefixOf (c :: (kdt ++ '\n' :: tail)) = false := by
        show ('\n' == c && sd.isPrefixOf (kdt ++ '\n' :: tail)) = false
        rw [hbc]
        rfl
      rw [List.cons_append, findSubstr, if_neg (by simp [hpre])]
      rw [ih (fun hh => hk (by simp [hh])) sd tail]
      cases findSubstr ('\n' :: sd) ('\n' :: tail) with
      | none => rfl
      | some i =>
          show some ((i + kdt.length) + 1) = some (i + (kdt.length + 1))
          have h2 : (i + kdt.length) + 1 = i + (kdt.length + 1) := by omega
          rw [h2]

/-- The scan skips a whole leading key that the section is not a prefix
of. -/
theorem findSubstr_skip_key (sd kd tail : List Char) (hs : '\n' ∉ sd)
    (hk : '\n' ∉ kd) (hnp : sd.isPrefixOf kd = false) :
    findSubstr ('\n' :: sd) ('\n' :: (kd ++ '\n' :: tail)) =
      (findSubstr ('\n' :: sd) ('\n' :: tail)).map (· + (kd.length + 1)) := by
  have hpre : ('\n' :: sd).isPrefixOf ('\n' :: (kd ++ '\n' :: tail)) = false := by
    show ('\n' == '\n' && sd.isPrefixOf (kd ++ '\n' :: tail)) = false
    rw [isPrefixOf_append_newline sd kd tail hs hk, hnp]
    simp
  rw [findSubstr, if_neg (by simp [hpre])]
  rw [findSubstr_key_chars kd hk sd tail]
  cases findSubstr ('\n' :: sd) ('\n' :: tail) with
  | none => rfl
  | some i =>
      show some ((i + kd.length) + 1) = some (i + (kd.length + 1))
      have h2 : (i + kd.length) + 1 = i + (kd.length + 1) := by omega
      rw [h2]

/-- The decision rule the code implements, stated from the amended claim's
words: the first affected key (in insertion order) that starts with the
section decides; it affects the section exactly when it equals the section
or continues with a dot. -/
def firstPrefixRule (change : IConfigurationChange) (sect : String) : Bool :=
  match (affectedKeysList change).find? (fun k => sect.data.isPrefixOf k.data) with
  | none => false
  | some k =>
      match k.data.drop sect.data.length with
      | [] => true
      | c :: _ => c = '.'

/-- The marker scan over a batch of newline-free keys agrees with the
first-prefix decision rule. -/
theorem affectsAux_spec :
    ∀ (ks : List String) (sd : List Char), '\n' ∉ sd →
      (∀ k ∈ ks, '\n' ∉ k.data) →
      (match findSubstr ('\n' :: sd) ('\n' :: ks.flatMap (fun k => k.data ++ ['\n'])) with
       | none => false
       | some idx =>
          match ('\n' :: ks.flatMap (fun k => k.data ++ ['\n'])).get?
              (idx + (sd.length + 1)) with
          | none => false
          | some c => c = '\n' || c = '.') =
      (match ks.find? (fun k => sd.isPrefixOf k.data) with
       | none => false
       | some k =>
          match k.data.drop sd.length with
          | [] => true
          | c :: _ => decide (c = '.')) := by
  intro ks
  induction ks with
  | nil =>
      intro sd hs _
      simp only [List.flatMap_nil, List.find?_nil]
      cases sd with
      | nil =>
          rw [findSubstr]
          rw [if_pos (by simp [List.isPrefixOf])]
          rfl
      | cons c sdt =>
          have hpre : ('\n' :: c :: sdt).isPrefixOf ['\n'] = false := by
            simp [List.isPrefixOf]
          rw [findSubstr, if_neg (by simp [hpre])]
          rw [findSubstr]
          rw [if_neg (by simp [List.isPrefixOf])]
          rfl
  | cons k0 rest ih =>
      intro sd hs hk
      have hk0 : '\n' ∉ k0.data := hk k0 (List.mem_cons_self k0 rest)
      have hkr : ∀ k ∈ rest, '\n' ∉ k.data := fun k hm => hk k (List.mem_cons_of_mem k0 hm)
      have hflat : (k0 :: rest).flatMap (fun k => k.data ++ ['\n']) =
          k0.data ++ '\n' :: rest.flatMap (fun k => k.data ++ ['\n']) := by
        simp
      rw [hflat]
      cases hp : sd.isPrefixOf k0.data with
      | true =>
          have hpre : ('\n' :: sd).isPrefixOf
              ('\n' :: (k0.data ++ '\n' :: rest.flatMap (fun k => k.data ++ ['\n']))) =
                true := by
            show ('\n' == '\n' && sd.isPrefixOf
              (k0.data ++ '\n' :: rest.flatMap (fun k => k.data ++ ['\n']))) = true
            rw [isPrefixOf_append_ext sd k0.data _ hp]
            simp
          rw [findSubstr, if_pos (by simp [hpre])]
          have hfind : List.find? (fun k => sd.isPrefixOf k.data) (k0 :: rest) =
              some k0 := by
            rw [List.find?]
            simp [hp]
          have hR : (match List.find? (fun k => sd.isPrefixOf k.data) (k0 :: rest) with
              | none => false
              | some k =>
                  match k.data.drop sd.length with
                  | [] => true
                  | c :: _ => decide (c = '.')) =
              match k0.data.drop sd.length with
              | [] => true
              | c :: _ => decide (c = '.') := by
            rw [hfind]
          rw [hR]
          have hidx : (0 : Nat) + (sd.length + 1) = sd.length + 1 := by omega
          show (match ('\n' :: (k0.data ++ '\n' :: rest.flatMap
              (fun k => k.data ++ ['\n']))).get? (0 + (sd.length + 1)) with
            | none => false
            | some c => decide (c = '\n') || decide (c = '.')) = _
          rw [hidx]
          show (match (k0.data ++ '\n' :: rest.flatMap
              (fun k => k.data ++ ['\n'])).get? sd.length with
            | none => false
            | some c => decide (c = '\n') || decide (c = '.')) = _
          cases hdrop : k0.data.drop sd.length with
          | nil =>
              have heq : sd = k0.data := isPrefixOf_drop_nil sd k0.data hp hdrop
              have hget : (k0.data ++ '\n' :: rest.flatMap
                  (fun k => k.data ++ ['\n'])).get? sd.length = some '\n' := by
                rw [heq]
                have h0 : k0.data.length = k0.data.length + 0 := by omega
                rw [h0, listGetAppendRight]
                rfl
              rw [hget]
              rfl
          | cons c cs =>
              have hlt : sd.length < k0.data.length := by
                have hlen := congrArg List.length hdrop
                rw [List.length_drop] at hlen
                simp only [List.length_cons] at hlen
                omega
              have hget : (k0.data ++ '\n' :: rest.flatMap
                  (fun k => k.data ++ ['\n'])).get? sd.length = some c := by
                rw [listGetAppendLeft k0.data _ sd.length hlt, listGetDropHead, hdrop]
                rfl
              rw [hget]
              have hcmem : c ∈ k0.data := by
                have hcm : c ∈ k0.data.drop sd.length := by
                  rw [hdrop]
                  exact List.mem_cons_self c cs
                exact List.drop_subset sd.length k0.data hcm
              have hcne : c ≠ '\n' := fun hh => hk0 (hh ▸ hcmem)
              show (decide (c = '\n') || decide (c = '.')) = decide (c = '.')
              simp [hcne]
      | false =>
          rw [findSubstr_skip_key sd k0.data _ hs hk0 hp]
          have hfind : List.find? (fun k => sd.isPrefixOf k.data) (k0 :: rest) =
              List.find? (fun k => sd.isPrefixOf k.data) rest := by
            rw [List.find?]
            simp [hp]
          rw [hfind]
          have hIH := ih sd hs hkr
          cases hfs : findSubstr ('\n' :: sd)
              ('\n' :: rest.flatMap (fun k => k.data ++ ['\n'])) with
          | none =>
              rw [hfs] at hIH
              exact hIH
          | some i =>
              rw [hfs] at hIH
              have hshift : ('\n' :: (k0.data ++ '\n' :: rest.flatMap
                    (fun k => k.data ++ ['\n']))).get?
                  ((i + (k0.data.length + 1)) + (sd.length + 1)) =
                ('\n' :: rest.flatMap (fun k => k.data ++ ['\n'])).get?
                  (i + (sd.length + 1)) := by
                have h1 : ('\n' :: (k0.data ++ '\n' :: rest.flatMap
                    (fun k => k.data ++ ['\n']))) =
                  ('\n' :: k0.data) ++ ('\n' :: rest.flatMap
                    (fun k => k.data ++ ['\n'])) := by simp
                have h2 : (i + (k0.data.length + 1)) + (sd.length + 1) =
                    ('\n' :: k0.data).length + (i + (sd.length + 1)) := by
                  simp only [List.length_cons]
                  omega
                rw [h1, h2, listGetAppendRight]
              show (match ('\n' :: (k0.data ++ '\n' :: rest.flatMap
                  (fun k => k.data ++ ['\n']))).get?
                  ((i + (k0.data.length + 1)) + (sd.length + 1)) with
                | none => false
                | some c => decide (c = '\n') || decide (c = '.')) = _
              rw [hshift]
              exact hIH

/-- C4 (amended): for keys and a section free of the marker character,
affectsConfiguration(section) called without overrides is decided by the
first affected key (in insertion order) that starts with the section: it
returns true exactly when that key equals the section or continues with a
dot after it.  A later key that equals the section or extends it with a dot
does not make the call return true when an earlier key merely shares the
prefix (see the counterexample). -/
theorem claim4_amended_first_prefix_decides (change : IConfigurationChange)
    (sect : String) (hk : ∀ k ∈ affectedKeysList change, '\n' ∉ k.data)
    (hs : '\n' ∉ sect.data) :
    affectsConfiguration change sect = firstPrefixRule change sect := by
  have h := affectsAux_spec (affectedKeysList change) sect.data hs hk
  rw [← affectsConfigStr_eq] at h
  exact h

/-- A change set listing "editorX" before "editor.fontSize". -/
def c4Change : IConfigurationChange := ⟨["editorX", "editor.fontSize"], []⟩

/-- C4 counterexample: the change set contains "editor.fontSize", which
starts with "editor" followed by a dot, so the claim predicts that
affectsConfiguration("editor") returns true.  The single indexOf finds the
earlier key "editorX" first, checks the character after the prefix ('X'),
and returns false without looking further. -/
theorem claim4_counterexample :
    "editor.fontSize" ∈ affectedKeysList c4Change ∧
    ("editor" ++ ".").data.isPrefixOf ("editor.fontSize").data = true ∧
    affectsConfiguration c4Change "editor" = false := by
  refine ⟨by decide, by decide, by decide⟩

/-- A change set whose only key extends "editor" with a dot. -/
def c4Witness : IConfigurationChange := ⟨["editor.fontSize"], []⟩

/-- C4 witness: with newline-free keys the amended rule applies, and here
the first (only) key starting with "editor" continues with a dot, so
affectsConfiguration("editor") is true. -/
theorem claim4_amended_witness :
    ('\n' ∉ "editor".data) ∧
    affectsConfiguration c4Witness "editor" = firstPrefixRule c4Witness "editor" ∧
    affectsConfiguration c4Witness "editor" = true := by
  refine ⟨by decide, ?_, by decide⟩
  refine claim4_amended_first_prefix_decides c4Witness "editor" ?_ (by decide)
  intro k hkk
  have hk2 : k = "editor.fontSize" := by
    have : k ∈ affectedKeysList c4Witness := hkk
    have hlist : affectedKeysList c4Witness = ["editor.fontSize"] := by decide
    rw [hlist] at this
    simpa using this
  subst hk2
  decide

end ConfigurationChangeEvent

/-! Claim C6. -/

theorem isEmpty_eq_empty {m : ConfigurationModel} (h : m.isEmpty = true) :
    m = ConfigurationModel.createEmptyModel := by
  obtain ⟨cs, ks, ovs⟩ := m
  unfold ConfigurationModel.isEmpty at h
  simp only [Bool.and_eq_true, List.isEmpty_iff] at h
  obtain ⟨⟨h1, h2⟩, h3⟩ := h
  subst h1
  subst h2
  subst h3
  rfl

/-- C6 as amended: for a configuration whose memory layers are empty and
whose consolidation caches are unfilled, parse(toData(c)) resolves every
(key, resource, override identifier, workspace) combination to the same
value as c.  (The serialized snapshot omits the memory layers, so memory
values do not survive the round trip.) -/
theorem claim6_amended_roundtrip (c : Configuration)
    (hmem : c._memoryConfiguration.isEmpty = true)
    (hmbr : c._memoryConfigurationByResource = [])
    (hwc : c._workspaceConsolidatedConfiguration = none)
    (hfc : c._foldersConsolidatedConfigurations = []) :
    ∀ (sect : String) (ov : IConfigurationOverrides) (w : Option Workspace),
      (Configuration.parse c.toData).getValue sect ov w = c.getValue sect ov w := by
  intro sect ov w
  have hm : c._memoryConfiguration = ConfigurationModel.createEmptyModel :=
    isEmpty_eq_empty hmem
  have hfold : Configuration.parse c.toData =
      ⟨c._defaultConfiguration, c._policyConfiguration, c._applicationConfiguration,
       c.userConfiguration, ConfigurationModel.createEmptyModel, c._workspaceConfiguration,
       c._folderConfigurations, ConfigurationModel.createEmptyModel, [], none, []⟩ := by
    unfold Configuration.parse Configuration.toData Configuration.parseConfigurationModel
    congr 1
    rw [List.map_map]
    rw [show ((fun p : String × ConfigurationModel =>
          (p.1, (⟨p.2.contents, p.2.keys, p.2.overrides⟩ : ConfigurationModel))) ∘
          (fun p : String × ConfigurationModel =>
          (p.1, (⟨p.2.contents, p.2.keys, p.2.overrides⟩ : ConfigurationModel)))) =
        id from funext fun p => rfl]
    exact List.map_id _
  rw [hfold]
  simp [Configuration.getValue, Configuration.getConsolidatedConfigurationModel,
    Configuration.getConsolidatedConfigurationModelForResource,
    Configuration.getWorkspaceConsolidatedConfiguration,
    Configuration.getFolderConsolidatedConfiguration, Configuration.userConfiguration,
    ConfigurationModel.isEmpty, ConfigurationModel.createEmptyModel, lookupAssoc,
    hm, hmbr, hwc, hfc, List.isEmpty_nil]

/-- A configuration whose only non-empty layer is the global memory model. -/
def c6Configuration : Configuration :=
  { _defaultConfiguration := ConfigurationModel.createEmptyModel
    _policyConfiguration := ConfigurationModel.createEmptyModel
    _applicationConfiguration := ConfigurationModel.createEmptyModel
    _localUserConfiguration := ConfigurationModel.createEmptyModel
    _remoteUserConfiguration := ConfigurationModel.createEmptyModel
    _workspaceConfiguration := ConfigurationModel.createEmptyModel
    _folderConfigurations := []
    _memoryConfiguration := ⟨[("k", .num 1)], ["k"], []⟩
    _memoryConfigurationByResource := [] }

/-- C6 counterexample: the claim states that parse(toData(c)) resolves
every key to the same value as c.  toData does not serialize the memory
layers, so a key defined only in memory resolves before the round trip but
not after it. -/
theorem claim6_counterexample :
    c6Configuration.getValue "k" {} none = some (.num 1) ∧
    (Configuration.parse c6Configuration.toData).getValue "k" {} none = none ∧
    (none : Option JVal) ≠ some (.num 1) := by
  refine ⟨?_, ?_, by simp⟩ <;>
    simp [c6Configuration, Configuration.parse, Configuration.toData,
      Configuration.parseConfigurationModel, Configuration.getValue,
      Configuration.getConsolidatedConfigurationModel,
      Configuration.getConsolidatedConfigurationModelForResource,
      Configuration.getWorkspaceConsolidatedConfiguration,
      Configuration.userConfiguration, ConfigurationModel.isEmpty,
      ConfigurationModel.merge, ConfigurationModel.getValue,
      ConfigurationModel.createEmptyModel, getConfigurationValue, walkPath, splitPath,
      splitOnChar, lookupField, mergeContents, mergeField, setField, appendUnique,
      ConfigurationModel.replaceFirstOverride]

/-- C6 witness: the amended round-trip theorem applied to a concrete
configuration with empty memory layers and fresh caches. -/
theorem claim6_amended_witness :
    c10Configuration._memoryConfiguration.isEmpty = true ∧
    (Configuration.parse c10Configuration.toData).getValue "a" {} none =
      c10Configuration.getValue "a" {} none :=
  ⟨rfl, claim6_amended_roundtrip c10Configuration rfl rfl rfl rfl "a" {} none⟩

/-! Claim C7. -/

namespace ConfigurationRegistry

/-- The provenance entries recorded by one object-valued default
contribution: for each top-level key of the contributed object, the path
`key.objectKey` maps to the contributing extension (no entries change when
the contribution has no source). -/
def provenanceFold (k : String) (src : Option Nat) (vf : ObjMap)
    (es : List (String × Nat)) : List (String × Nat) :=
  match src with
  | some vs => vf.foldl (fun acc q => setAssoc acc (k ++ "." ++ q.1) vs) es
  | none => es

/-- C7 as amended: registering a default for a plain unregistered key that
already has an object-valued default override merges shallowly, not per
leaf: the new value is the JavaScript spread of the existing object under
the contributed object, the contributed value winning wholesale per
top-level key, with provenance recorded under `key.objectKey` for each
top-level key of the contributed object; a non-object contributed value
simply replaces the default, with the contributing extension as its
provenance. -/
theorem isObj_true_iff (v : JVal) : v.isObj = true ↔ ∃ f, v = .obj f := by
  cases v <;> simp [JVal.isObj]

theorem claim7_amended_shallow_default_merge (reg : ConfigurationRegistry) (k : String)
    (v : JVal) (src : Option Nat) (e : IConfigurationDefaultOverrideValue)
    (entry : ConfigurationDefaultOverrideEntry) (es : List (String × Nat))
    (hkey : isOverrideKey k = false)
    (hprop : lookupAssoc reg.configurationProperties k = none)
    (hentry : lookupAssoc reg.configurationDefaultsOverrides k = some entry)
    (hev : entry.configurationDefaultOverrideValue = some e)
    (heobj : e.value.isObj = true)
    (hesrc : e.source = some (.map es)) :
    (v.isObj = true →
      lookupAssoc (doRegisterDefaultConfigurations reg
          [⟨[(k, v)], src⟩]).configurationDefaultsOverrides k = some
        { configurationDefaultOverrides := entry.configurationDefaultOverrides ++ [(v, src)],
          configurationDefaultOverrideValue := some
            { value := .obj (spreadFields (JValObjFields e.value) (JValObjFields v)),
              source := some (.map (provenanceFold k src (JValObjFields v) es)) } }) ∧
    (v.isObj = false →
      lookupAssoc (doRegisterDefaultConfigurations reg
          [⟨[(k, v)], src⟩]).configurationDefaultsOverrides k = some
        { configurationDefaultOverrides := entry.configurationDefaultOverrides ++ [(v, src)],
          configurationDefaultOverrideValue := some
            { value := v, source := src.map .extension } }) := by
  have hmerge : ∀ hv : v.isObj = true,
      mergeDefaultConfigurationsForConfigurationProperty reg k v src
        entry.configurationDefaultOverrideValue = some
          { value := .obj (spreadFields (JValObjFields e.value) (JValObjFields v)),
            source := some (.map (provenanceFold k src (JValObjFields v) es)) } := by
    intro hv
    obtain ⟨vf, rfl⟩ := (isObj_true_iff v).mp hv
    obtain ⟨ef, hevv⟩ := (isObj_true_iff e.value).mp heobj
    unfold mergeDefaultConfigurationsForConfigurationProperty
    rw [hprop, hev]
    cases src with
    | none => simp [hesrc, hevv, provenanceFold, JValObjFields, JVal.isObj]
    | some vs => simp [hesrc, hevv, provenanceFold, JValObjFields, JVal.isObj]
  have hmerge2 : ∀ hv : v.isObj = false,
      mergeDefaultConfigurationsForConfigurationProperty reg k v src
        entry.configurationDefaultOverrideValue = some
          { value := v, source := src.map .extension } := by
    intro hv
    unfold mergeDefaultConfigurationsForConfigurationProperty
    rw [hprop, hev]
    simp [hv]
  constructor
  · intro hv
    unfold doRegisterDefaultConfigurations doRegisterOverrideIdentifiers
    simp only [List.foldl_cons, List.foldl_nil, hentry, Option.getD_some, hkey,
      Bool.false_eq_true, if_false, hmerge hv, hprop]
    rw [lookupAssoc_setAssoc_self]
  · intro hv
    unfold doRegisterDefaultConfigurations doRegisterOverrideIdentifiers
    simp only [List.foldl_cons, List.foldl_nil, hentry, Option.getD_some, hkey,
      Bool.false_eq_true, if_false, hmerge2 hv, hprop]
    rw [lookupAssoc_setAssoc_self]

/-- The registry after one object-valued default contribution for the plain
key k from extension 1. -/
def c7RegistryAfterFirst : ConfigurationRegistry :=
  doRegisterDefaultConfigurations {} [⟨[("k", .obj [("x", .obj [("p", .num 1)])])], some 1⟩]

/-- The registry after a second object-valued contribution for k from
extension 2, whose value shares the top-level sub-key x. -/
def c7RegistryAfterSecond : ConfigurationRegistry :=
  doRegisterDefaultConfigurations c7RegistryAfterFirst
    [⟨[("k", .obj [("x", .obj [("q", .num 2)])])], some 2⟩]

/-- C7 counterexample: the claim states that object-valued defaults are
deep-merged key by key with last-writer-wins per leaf and provenance per
dotted leaf path.  After contributing k = x:(p:1) and then k = x:(q:2), the
code's shallow spread makes the resulting default x:(q:2), not the per-leaf
merge x:(p:1, q:2), and the provenance maps the one-level path k.x to the
last writer rather than the leaf paths k.x.p and k.x.q. -/
theorem claim7_counterexample :
    (lookupAssoc c7RegistryAfterSecond.configurationDefaultsOverrides "k").map
        (fun entry => entry.configurationDefaultOverrideValue.map
          (fun o => (o.value, o.source))) =
      some (some (.obj [("x", .obj [("q", .num 2)])],
        some (.map [("k.x", 2)]))) ∧
    JVal.obj [("x", .obj [("q", .num 2)])] ≠
      JVal.obj [("x", .obj [("p", .num 1), ("q", .num 2)])] := by
  constructor
  · rfl
  · simp

/-- C7 witness: the amended theorem applied to the registry that already
holds the first contribution, for the second contribution. -/
theorem claim7_amended_witness :
    (JVal.obj [("x", .obj [("q", .num 2)])]).isObj = true ∧
    lookupAssoc (doRegisterDefaultConfigurations c7RegistryAfterFirst
        [⟨[("k", .obj [("x", .obj [("q", .num 2)])])],
          some 2⟩]).configurationDefaultsOverrides "k" = some
      { configurationDefaultOverrides :=
          [(.obj [("x", .obj [("p", .num 1)])], some 1),
           (.obj [("x", .obj [("q", .num 2)])], some 2)],
        configurationDefaultOverrideValue := some
          { value := .obj (spreadFields
              (JValObjFields (.obj [("x", .obj [("p", .num 1)])]))
              (JValObjFields (.obj [("x", .obj [("q", .num 2)])]))),
            source := some (.map (provenanceFold "k" (some 2)
              (JValObjFields (.obj [("x", .obj [("q", .num 2)])])) [("k.x", 1)])) } } :=
  ⟨rfl,
    (claim7_amended_shallow_default_merge c7RegistryAfterFirst "k"
      (.obj [("x", .obj [("q", .num 2)])]) (some 2)
      { value := .obj [("x", .obj [("p", .num 1)])], source := some (.map [("k.x", 1)]) }
      { configurationDefaultOverrides := [(.obj [("x", .obj [("p", .num 1)])], some 1)],
        configurationDefaultOverrideValue := some
          { value := .obj [("x", .obj [("p", .num 1)])],
            source := some (.map [("k.x", 1)]) } }
      [("k.x", 1)] rfl rfl rfl rfl rfl rfl).1 rfl⟩

/-! Claim C8. -/

theorem processSchemaBase_included (reg : ConfigurationRegistry) (k : String)
    (sch : IRegisteredConfigurationPropertySchema) (e : Option Nat)
    (r : Option (List String)) (s : ConfigurationScope) :
    (processSchemaBase reg k sch e r s).included = sch.included := by
  unfold processSchemaBase updatePropertyDefaultValue
  dsimp only
  split_ifs <;> rfl

theorem processSchemaBase_policy (reg : ConfigurationRegistry) (k : String)
    (sch : IRegisteredConfigurationPropertySchema) (e : Option Nat)
    (r : Option (List String)) (s : ConfigurationScope) :
    (processSchemaBase reg k sch e r s).policy = sch.policy := by
  unfold processSchemaBase updatePropertyDefaultValue
  dsimp only
  split_ifs <;> rfl

theorem applyDeprecationFallback_policy (sch : IRegisteredConfigurationPropertySchema) :
    (applyDeprecationFallback sch).policy = sch.policy := by
  unfold applyDeprecationFallback
  split_ifs <;> rfl

theorem processSchemaBase_congr (reg1 reg2 : ConfigurationRegistry) (k : String)
    (sch : IRegisteredConfigurationPropertySchema) (e : Option Nat)
    (r : Option (List String)) (s : ConfigurationScope)
    (h : reg1.configurationDefaultsOverrides = reg2.configurationDefaultsOverrides) :
    processSchemaBase reg1 k sch e r s = processSchemaBase reg2 k sch e r s := by
  unfold processSchemaBase updatePropertyDefaultValue
  rw [h]

theorem validateProperty_congr (reg1 reg2 : ConfigurationRegistry) (k : String)
    (sch : IRegisteredConfigurationPropertySchema)
    (hp : lookupAssoc reg1.configurationProperties k =
      lookupAssoc reg2.configurationProperties k)
    (hpol : ∀ pn, sch.policy = some pn →
      lookupAssoc reg1.policyConfigurations pn = lookupAssoc reg2.policyConfigurations pn) :
    validateProperty reg1 k sch = validateProperty reg2 k sch := by
  unfold validateProperty
  rw [hp]
  cases hsp : sch.policy with
  | none => rfl
  | some pn => simp [hpol pn hsp]

theorem validateProperty_err_nonempty (reg : ConfigurationRegistry) (k : String)
    (sch : IRegisteredConfigurationPropertySchema) (err : String)
    (h : validateProperty reg k sch = some err) : err ≠ "" := by
  unfold validateProperty at h
  split_ifs at h with h1 h2 h3
  · cases h
    decide
  · cases h
    intro hemp
    have hl := congrArg String.length hemp
    simp [String.length_append] at hl
    exact absurd hl.2 (by decide)
  · cases h
    intro hemp
    have hl := congrArg String.length hemp
    simp [String.length_append] at hl
    exact absurd hl.2 (by decide)
  · split at h
    · split at h
      · cases h
        intro hemp
        have hl := congrArg String.length hemp
        simp [String.length_append] at hl
        exact absurd hl.2 (by decide)
      · cases h
    · cases h

/-- The registry after one loop iteration keeps its default-override map. -/
theorem processPropertyStep_dos (v : Bool) (e : Option Nat) (r : Option (List String))
    (s : ConfigurationScope) (reg : ConfigurationRegistry)
    (kept : List (String × IRegisteredConfigurationPropertySchema))
    (p : String × IRegisteredConfigurationPropertySchema) :
    ((processPropertyStep v e r s (reg, kept) p).1).configurationDefaultsOverrides =
      reg.configurationDefaultsOverrides := by
  unfold processPropertyStep
  dsimp only
  split_ifs <;> rfl

/-- One loop iteration does not change the registered or excluded entry of
any other key. -/
theorem processPropertyStep_other_key (v : Bool) (e : Option Nat)
    (r : Option (List String)) (s : ConfigurationScope) (reg : ConfigurationRegistry)
    (kept : List (String × IRegisteredConfigurationPropertySchema))
    (p : String × IRegisteredConfigurationPropertySchema) (key : String)
    (h : key ≠ p.1) :
    lookupAssoc ((processPropertyStep v e r s (reg, kept) p).1).configurationProperties key =
      lookupAssoc reg.configurationProperties key ∧
    lookupAssoc ((processPropertyStep v e r s (reg, kept) p).1).excludedConfigurationProperties
        key =
      lookupAssoc reg.excludedConfigurationProperties key := by
  unfold processPropertyStep
  dsimp only
  split_ifs
  · exact ⟨rfl, rfl⟩
  · exact ⟨rfl, lookupAssoc_setAssoc_ne _ _ _ _ h⟩
  · exact ⟨lookupAssoc_setAssoc_ne _ _ _ _ h, rfl⟩

/-- One loop iteration does not change the policy binding of a policy name
that the looped property does not carry. -/
theorem processPropertyStep_other_policy (v : Bool) (e : Option Nat)
    (r : Option (List String)) (s : ConfigurationScope) (reg : ConfigurationRegistry)
    (kept : List (String × IRegisteredConfigurationPropertySchema))
    (p : String × IRegisteredConfigurationPropertySchema) (pn : String)
    (h : ∀ pn2, p.2.policy = some pn2 → pn ≠ pn2) :
    lookupAssoc ((processPropertyStep v e r s (reg, kept) p).1).policyConfigurations pn =
      lookupAssoc reg.policyConfigurations pn := by
  unfold processPropertyStep
  dsimp only
  split_ifs
  · rfl
  · rfl
  · cases hpol : (applyDeprecationFallback
        (processSchemaBase reg p.1 p.2 e r s)).policy with
    | none => simp [hpol]
    | some pn2 =>
        have hp2 : p.2.policy = some pn2 := by
          rw [← processSchemaBase_policy reg p.1 p.2 e r s,
            ← applyDeprecationFallback_policy (processSchemaBase reg p.1 p.2 e r s)]
          exact hpol
        simp only [hpol]
        exact lookupAssoc_setAssoc_ne _ _ _ _ (h pn2 hp2)

/-- One loop iteration either keeps the node's property list or appends the
looped key with its processed schema. -/
theorem processPropertyStep_kept_cases (v : Bool) (e : Option Nat)
    (r : Option (List String)) (s : ConfigurationScope) (reg : ConfigurationRegistry)
    (kept : List (String × IRegisteredConfigurationPropertySchema))
    (p : String × IRegisteredConfigurationPropertySchema) :
    (processPropertyStep v e r s (reg, kept) p).2 = kept ∨
    (processPropertyStep v e r s (reg, kept) p).2 =
      kept ++ [(p.1, applyDeprecationFallback (processSchemaBase reg p.1 p.2 e r s))] := by
  unfold processPropertyStep
  dsimp only
  split_ifs
  · exact Or.inl rfl
  · exact Or.inl rfl
  · exact Or.inr rfl

/-- The property loop leaves the registered and excluded entries of keys
outside the batch unchanged. -/
theorem foldl_step_untouched (v : Bool) (e : Option Nat) (r : Option (List String))
    (s : ConfigurationScope) :
    ∀ (props : List (String × IRegisteredConfigurationPropertySchema))
      (reg : ConfigurationRegistry)
      (kept : List (String × IRegisteredConfigurationPropertySchema)) (key : String),
      key ∉ props.map Prod.fst →
      lookupAssoc ((props.foldl (processPropertyStep v e r s)
          (reg, kept)).1).configurationProperties key =
        lookupAssoc reg.configurationProperties key ∧
      lookupAssoc ((props.foldl (processPropertyStep v e r s)
          (reg, kept)).1).excludedConfigurationProperties key =
        lookupAssoc reg.excludedConfigurationProperties key := by
  intro props
  induction props with
  | nil => intro reg kept key _; exact ⟨rfl, rfl⟩
  | cons q rest ih =>
      intro reg kept key hk
      have hkq : key ≠ q.1 := fun hh => hk (by simp [hh])
      have hkr : key ∉ rest.map Prod.fst := fun hh => hk (by simp [hh])
      rw [List.foldl_cons]
      rcases hst : processPropertyStep v e r s (reg, kept) q with ⟨reg1, kept1⟩
      have hother := processPropertyStep_other_key v e r s reg kept q key hkq
      rw [hst] at hother
      have := ih reg1 kept1 key hkr
      exact ⟨this.1.trans hother.1, this.2.trans hother.2⟩

/-- The property loop keeps the default-override map unchanged. -/
theorem foldl_step_dos (v : Bool) (e : Option Nat) (r : Option (List String))
    (s : ConfigurationScope) :
    ∀ (props : List (String × IRegisteredConfigurationPropertySchema))
      (reg : ConfigurationRegistry)
      (kept : List (String × IRegisteredConfigurationPropertySchema)),
      ((props.foldl (processPropertyStep v e r s)
          (reg, kept)).1).configurationDefaultsOverrides =
        reg.configurationDefaultsOverrides := by
  intro props
  induction props with
  | nil => intro reg kept; rfl
  | cons q rest ih =>
      intro reg kept
      rw [List.foldl_cons]
      rcases hst : processPropertyStep v e r s (reg, kept) q with ⟨reg1, kept1⟩
      have hdos := processPropertyStep_dos v e r s reg kept q
      rw [hst] at hdos
      exact (ih reg1 kept1).trans hdos

/-- A key outside the batch that is not yet in the kept list stays out of
the kept list. -/
theorem foldl_step_kept_not_mem (v : Bool) (e : Option Nat) (r : Option (List String))
    (s : ConfigurationScope) :
    ∀ (props : List (String × IRegisteredConfigurationPropertySchema))
      (reg : ConfigurationRegistry)
      (kept : List (String × IRegisteredConfigurationPropertySchema)) (key : String),
      key ∉ kept.map Prod.fst → key ∉ props.map Prod.fst →
      key ∉ ((props.foldl (processPropertyStep v e r s) (reg, kept)).2.map Prod.fst) := by
  intro props
  induction props with
  | nil => intro reg kept key hk _; exact hk
  | cons q rest ih =>
      intro reg kept key hk hp
      have hkq : key ≠ q.1 := fun hh => hp (by simp [hh])
      have hkr : key ∉ rest.map Prod.fst := fun hh => hp (by simp [hh])
      rw [List.foldl_cons]
      rcases hst : processPropertyStep v e r s (reg, kept) q with ⟨reg1, kept1⟩
      have hkc := processPropertyStep_kept_cases v e r s reg kept q
      rw [hst] at hkc
      have hk1 : key ∉ kept1.map Prod.fst := by
        rcases hkc with hkc | hkc
        · have hkc2 : kept1 = kept := hkc
          rw [hkc2]; exact hk
        · have hkc2 : kept1 =
              kept ++ [(q.1, applyDeprecationFallback
                (processSchemaBase reg q.1 q.2 e r s))] := hkc
          rw [hkc2]
          simp only [List.map_append, List.mem_append, List.map_cons, List.map_nil,
            List.mem_cons]
          rintro (hh | hh | hh)
          · exact hk hh
          · exact hkq hh
          · cases hh
      exact ih reg1 kept1 key hk1 hkr

/-- The per-key behavior of the property loop over a batch with distinct
keys and distinct policy names, relative to the registry state at the start
of the batch: a property rejected by validation changes nothing for its key
and is dropped from the node; a valid property is registered with its
processed schema unless it is marked included false, in which case it is
recorded as excluded instead. -/
theorem processProperties_fold_spec (e : Option Nat) (r : Option (List String))
    (s : ConfigurationScope) :
    ∀ (props : List (String × IRegisteredConfigurationPropertySchema))
      (reg : ConfigurationRegistry)
      (kept0 : List (String × IRegisteredConfigurationPropertySchema)),
      (props.map Prod.fst).Nodup →
      (props.filterMap (fun p => p.2.policy)).Nodup →
      ∀ p ∈ props, p.1 ∉ kept0.map Prod.fst →
        ((validateProperty reg p.1 p.2).isSome →
          lookupAssoc ((props.foldl (processPropertyStep true e r s)
              (reg, kept0)).1).configurationProperties p.1 =
            lookupAssoc reg.configurationProperties p.1 ∧
          p.1 ∉ ((props.foldl (processPropertyStep true e r s)
              (reg, kept0)).2.map Prod.fst)) ∧
        (validateProperty reg p.1 p.2 = none → p.2.included ≠ some false →
          lookupAssoc ((props.foldl (processPropertyStep true e r s)
              (reg, kept0)).1).configurationProperties p.1 =
            some (applyDeprecationFallback (processSchemaBase reg p.1 p.2 e r s))) ∧
        (validateProperty reg p.1 p.2 = none → p.2.included = some false →
          lookupAssoc ((props.foldl (processPropertyStep true e r s)
              (reg, kept0)).1).configurationProperties p.1 =
            lookupAssoc reg.configurationProperties p.1 ∧
          lookupAssoc ((props.foldl (processPropertyStep true e r s)
              (reg, kept0)).1).excludedConfigurationProperties p.1 =
            some (processSchemaBase reg p.1 p.2 e r s)) := by
  intro props
  induction props with
  | nil => intro reg kept0 _ _ p hp; cases hp
  | cons q rest ih =>
      intro reg kept0 hnd hpol p hp hk0
      have hnd1 : (q.1 :: rest.map Prod.fst).Nodup := by simpa using hnd
      have hndq : q.1 ∉ rest.map Prod.fst := (List.nodup_cons.mp hnd1).1
      have hndr : (rest.map Prod.fst).Nodup := (List.nodup_cons.mp hnd1).2
      have hpolr : (rest.filterMap (fun p => p.2.policy)).Nodup := by
        cases hq : q.2.policy with
        | none => rw [List.filterMap_cons, hq] at hpol; exact hpol
        | some pn => rw [List.filterMap_cons, hq] at hpol; exact (List.nodup_cons.mp hpol).2
      have hpolq : ∀ pn, q.2.policy = some pn →
          pn ∉ rest.filterMap (fun p => p.2.policy) := by
        intro pn hq
        rw [List.filterMap_cons, hq] at hpol
        exact (List.nodup_cons.mp hpol).1
      rw [List.foldl_cons]
      rcases List.mem_cons.mp hp with rfl | hpr
      · -- the property is the head of the batch
        cases hval : validateProperty reg p.1 p.2 with
        | some err =>
            have hstep : processPropertyStep true e r s (reg, kept0) p = (reg, kept0) := by
              unfold processPropertyStep
              simp [hval]
            rw [hstep]
            refine ⟨fun _ => ?_, fun hnone _ => ?_, fun hnone _ => ?_⟩
            · exact ⟨(foldl_step_untouched true e r s rest reg kept0 p.1 hndq).1,
                foldl_step_kept_not_mem true e r s rest reg kept0 p.1 hk0 hndq⟩
            · cases hnone
            · cases hnone
        | none =>
            have hu := foldl_step_untouched true e r s rest
              (processPropertyStep true e r s (reg, kept0) p).1
              (processPropertyStep true e r s (reg, kept0) p).2 p.1 hndq
            by_cases hinc : (processSchemaBase reg p.1 p.2 e r s).included = some false
            · have h1 : (processPropertyStep true e r s
                  (reg, kept0) p).1.configurationProperties =
                    reg.configurationProperties := by
                unfold processPropertyStep
                simp [hval, hinc]
              have h2 : (processPropertyStep true e r s
                  (reg, kept0) p).1.excludedConfigurationProperties =
                    setAssoc reg.excludedConfigurationProperties p.1
                      (processSchemaBase reg p.1 p.2 e r s) := by
                unfold processPropertyStep
                simp [hval, hinc]
              have hinc2 : p.2.included = some false := by
                rw [← processSchemaBase_included reg p.1 p.2 e r s]; exact hinc
              refine ⟨fun hsome => ?_, fun _ hninc => absurd hinc2 hninc, fun _ _ => ?_⟩
              · simp at hsome
              refine ⟨hu.1.trans (by rw [h1]), hu.2.trans ?_⟩
              rw [h2]
              exact lookupAssoc_setAssoc_self _ _ _
            · have h1 : (processPropertyStep true e r s
                  (reg, kept0) p).1.configurationProperties =
                    setAssoc reg.configurationProperties p.1
                      (applyDeprecationFallback (processSchemaBase reg p.1 p.2 e r s)) := by
                unfold processPropertyStep
                simp [hval, hinc]
              have hinc2 : p.2.included ≠ some false := by
                rw [← processSchemaBase_included reg p.1 p.2 e r s]; exact hinc
              refine ⟨fun hsome => ?_, fun _ _ => ?_, fun _ hincf => absurd hincf hinc2⟩
              · simp at hsome
              refine hu.1.trans ?_
              rw [h1]
              exact lookupAssoc_setAssoc_self _ _ _
      · -- the property is in the tail of the batch
        have hpq : p.1 ≠ q.1 := by
          intro hh
          exact hndq (hh ▸ (List.mem_map.mpr ⟨p, hpr, rfl⟩))
        rcases hst : processPropertyStep true e r s (reg, kept0) q with ⟨reg1, kept1⟩
        have hother := processPropertyStep_other_key true e r s reg kept0 q p.1 hpq
        rw [hst] at hother
        have hdos := processPropertyStep_dos true e r s reg kept0 q
        rw [hst] at hdos
        have hpoltr : ∀ pn, p.2.policy = some pn →
            lookupAssoc reg1.policyConfigurations pn =
              lookupAssoc reg.policyConfigurations pn := by
          intro pn hpn
          have hnotq : ∀ pn2, q.2.policy = some pn2 → pn ≠ pn2 := by
            intro pn2 hq2 hEq
            have hmem : pn ∈ rest.filterMap (fun p => p.2.policy) :=
              List.mem_filterMap.mpr ⟨p, hpr, hpn⟩
            exact (hpolq pn2 hq2) (hEq ▸ hmem)
          have := processPropertyStep_other_policy true e r s reg kept0 q pn hnotq
          rw [hst] at this
          exact this
        have hval : validateProperty reg1 p.1 p.2 = validateProperty reg p.1 p.2 :=
          validateProperty_congr reg1 reg p.1 p.2 hother.1 hpoltr
        have hbase : processSchemaBase reg1 p.1 p.2 e r s =
            processSchemaBase reg p.1 p.2 e r s :=
          processSchemaBase_congr reg1 reg p.1 p.2 e r s hdos
        have hkc := processPropertyStep_kept_cases true e r s reg kept0 q
        rw [hst] at hkc
        have hk1 : p.1 ∉ kept1.map Prod.fst := by
          rcases hkc with hkc | hkc
          · have hkc2 : kept1 = kept0 := hkc
            rw [hkc2]; exact hk0
          · have hkc2 : kept1 =
                kept0 ++ [(q.1, applyDeprecationFallback
                  (processSchemaBase reg q.1 q.2 e r s))] := hkc
            rw [hkc2]
            simp only [List.map_append, List.mem_append, List.map_cons, List.map_nil,
              List.mem_cons]
            rintro (hh | hh | hh)
            · exact hk0 hh
            · exact hpq hh
            · cases hh
        have IH := ih reg1 kept1 hndr hpolr p hpr hk1
        refine ⟨fun hsome => ?_, fun hnone hninc => ?_, fun hnone hincf => ?_⟩
        · have hsome1 : (validateProperty reg1 p.1 p.2).isSome = true := by
            rw [hval]; exact hsome
          exact ⟨(IH.1 hsome1).1.trans hother.1, (IH.1 hsome1).2⟩
        · have hnone1 : validateProperty reg1 p.1 p.2 = none := by rw [hval]; exact hnone
          have := IH.2.1 hnone1 hninc
          rw [hbase] at this
          exact this
        · have hnone1 : validateProperty reg1 p.1 p.2 = none := by rw [hval]; exact hnone
          have := IH.2.2 hnone1 hincf
          rw [hbase] at this
          exact ⟨this.1.trans hother.1, this.2⟩

/-- registerConfiguration on a node without sub-nodes is the property loop
with the node's own scope (defaulting to WINDOW) and the node's extension
info and restricted-properties list. -/
theorem registerConfiguration_flat (reg : ConfigurationRegistry)
    (nscope : Option ConfigurationScope)
    (props : List (String × IRegisteredConfigurationPropertySchema))
    (einfo : Option Nat) (rprops : Option (List String)) :
    registerConfiguration reg (.mk nscope props [] einfo rprops) true =
      ((props.foldl (processPropertyStep true einfo rprops
          (nscope.getD ConfigurationScope.WINDOW)) (reg, [])).1,
       .mk nscope (props.foldl (processPropertyStep true einfo rprops
          (nscope.getD ConfigurationScope.WINDOW)) (reg, [])).2 [] einfo rprops) := by
  unfold registerConfiguration
  rw [validateAndRegisterProperties]
  simp [registerSubNodes, processProperties, IConfigurationNode.extensionInfo,
    IConfigurationNode.restrictedProperties]

/-- A schema marked included false: it passes validateProperty yet is not
registered. -/
def c8Schema : IRegisteredConfigurationPropertySchema := { included := some false }

/-- C8 counterexample: the property "b" of the batch is valid (its key is
non-empty, not an override pattern, not already registered, and it claims no
policy, so validateProperty accepts it), yet after registerConfiguration it
is absent from the registered configuration properties: a valid property
with included false is excluded instead of registered, refuting "all
remaining valid properties of the same batch are still registered". -/
theorem claim8_counterexample :
    validateProperty {} "b" c8Schema = none ∧
    lookupAssoc (registerConfiguration {}
        (.mk none [("b", c8Schema)] [] none none)
        true).1.configurationProperties "b" = none := by
  refine ⟨rfl, ?_⟩
  rw [registerConfiguration_flat]
  rfl

/-- C8 (amended): over a batch with distinct keys and distinct policy names,
each property rejected by validateProperty (empty key, override pattern,
already registered, policy claimed by another key) yields a non-empty
human-readable error string, leaves any previously registered descriptor
for that key unchanged, and is deleted from the node; each remaining valid
property whose schema does not set included to false is registered with its
processed schema; a valid property with included false is instead recorded
among the excluded configuration properties (with its processed schema) and
is not registered.  No input makes the whole registration fail: the result
is always a registry and a cleaned node. -/
theorem claim8_amended_batch_validation (reg : ConfigurationRegistry)
    (nscope : Option ConfigurationScope)
    (props : List (String × IRegisteredConfigurationPropertySchema))
    (einfo : Option Nat) (rprops : Option (List String))
    (hnd : (props.map Prod.fst).Nodup)
    (hpol : (props.filterMap (fun p => p.2.policy)).Nodup)
    (p : String × IRegisteredConfigurationPropertySchema) (hp : p ∈ props) :
    (∀ err, validateProperty reg p.1 p.2 = some err →
      err ≠ "" ∧
      lookupAssoc (registerConfiguration reg (.mk nscope props [] einfo rprops)
          true).1.configurationProperties p.1 =
        lookupAssoc reg.configurationProperties p.1 ∧
      p.1 ∉ ((registerConfiguration reg (.mk nscope props [] einfo rprops)
          true).2.properties.map Prod.fst)) ∧
    (validateProperty reg p.1 p.2 = none → p.2.included ≠ some false →
      lookupAssoc (registerConfiguration reg (.mk nscope props [] einfo rprops)
          true).1.configurationProperties p.1 =
        some (applyDeprecationFallback (processSchemaBase reg p.1 p.2 einfo rprops
          (nscope.getD ConfigurationScope.WINDOW)))) ∧
    (validateProperty reg p.1 p.2 = none → p.2.included = some false →
      lookupAssoc (registerConfiguration reg (.mk nscope props [] einfo rprops)
          true).1.configurationProperties p.1 =
        lookupAssoc reg.configurationProperties p.1 ∧
      lookupAssoc (registerConfiguration reg (.mk nscope props [] einfo rprops)
          true).1.excludedConfigurationProperties p.1 =
        some (processSchemaBase reg p.1 p.2 einfo rprops
          (nscope.getD ConfigurationScope.WINDOW))) := by
  rw [registerConfiguration_flat]
  have hspec := processProperties_fold_spec einfo rprops
    (nscope.getD ConfigurationScope.WINDOW) props reg [] hnd hpol p hp (by simp)
  refine ⟨fun err herr => ?_, fun hnone hninc => hspec.2.1 hnone hninc,
    fun hnone hincf => hspec.2.2 hnone hincf⟩
  have hsome : (validateProperty reg p.1 p.2).isSome = true := by
    rw [herr]; rfl
  refine ⟨validateProperty_err_nonempty reg p.1 p.2 err herr, (hspec.1 hsome).1, ?_⟩
  have hnode := (hspec.1 hsome).2
  simpa [IConfigurationNode.properties] using hnode

/-- C8 witness: a two-property batch with distinct keys and no policies; the
first property is valid and not marked included false, and the amended
theorem registers it with its processed schema. -/
theorem claim8_amended_witness :
    (([("a", ({} : IRegisteredConfigurationPropertySchema)),
        ("b", c8Schema)].map Prod.fst).Nodup) ∧
    lookupAssoc (registerConfiguration {}
        (.mk none [("a", ({} : IRegisteredConfigurationPropertySchema)), ("b", c8Schema)]
          [] none none) true).1.configurationProperties "a" =
      some (applyDeprecationFallback (processSchemaBase {} "a" {} none none
        ConfigurationScope.WINDOW)) := by
  have h := claim8_amended_batch_validation {} none
    [("a", ({} : IRegisteredConfigurationPropertySchema)), ("b", c8Schema)] none none
    (by simp) (by simp [c8Schema]) ("a", {}) (List.mem_cons_self _ _)
  exact ⟨by simp, h.2.1 rfl (by simp)⟩

end ConfigurationRegistry

end VSConfig
